import Mathlib

/-!
Verification development for the lightning-strike EDA pipeline
(`src/cleaning.py`, `src/analysis.py`).

Modelling conventions (shallow embedding):
* A pandas DataFrame is modelled as a `Table`: per-column presence flags
  (pandas tolerates partial schemas via `if col in df.columns`) together with
  an ordered list of rows.
* A numeric cell is `Option ℚ` (`none` models NaN / a missing value; every
  float value is a rational, so ℚ is a faithful value domain for the
  decision logic verified here).  A timestamp cell is `Option Int`, the count
  of nanoseconds since the Unix epoch, which is exactly the payload of a
  `datetime64[ns]` value (`none` models NaT).
* `pd.to_numeric(..., errors="coerce")` and
  `pd.to_datetime(..., unit="ns", errors="coerce")` map arbitrary raw cells
  into this value domain; on the model's value domain they are the identity,
  so quantifying over all `Table`s covers all post-coercion states.
* `clean_and_types` never adds or removes a column, so its steps are row-list
  transformers parameterized by the (constant) column set of the input table.
-/

namespace Lightning

/-- One event record (one DataFrame row).  The first seven fields are the
CSV columns, the last six are the calendar features derived by
`add_time_features`.  A field of a row is only meaningful when the owning
table's presence flag for that column is set. -/
structure Row where
  time : Option Int
  lat : Option ℚ
  lon : Option ℚ
  region : Option ℚ
  mds : Option ℚ
  mcg : Option ℚ
  status : Option ℚ
  year : Option Int
  month : Option Int
  day : Option Int
  hour : Option Int
  minute : Option Int
  second : Option Int
deriving DecidableEq

/-- A DataFrame: which columns are present, plus the ordered rows. -/
structure Table where
  hasTime : Bool
  hasLat : Bool
  hasLon : Bool
  hasRegion : Bool
  hasMds : Bool
  hasMcg : Bool
  hasStatus : Bool
  hasYear : Bool
  hasMonth : Bool
  hasDay : Bool
  hasHour : Bool
  hasMinute : Bool
  hasSecond : Bool
  rows : List Row
deriving DecidableEq

/-- Row survives `df.dropna(subset=[essential cols present])`
(cleaning.py lines 52-53): every present column among
`time, lat, lon, region` must be non-missing. -/
def essKeep (t : Table) (r : Row) : Bool :=
  (!t.hasTime || r.time.isSome) && (!t.hasLat || r.lat.isSome) &&
  (!t.hasLon || r.lon.isSome) && (!t.hasRegion || r.region.isSome)

/-- Essential-field drop (cleaning.py lines 52-53). -/
def dropEssentialRows (t : Table) (l : List Row) : List Row := l.filter (essKeep t)

/-- Predicate of `df["lat"].between(-90, 90)`: inclusive bounds, `False` on NaN. -/
def latOk (r : Row) : Bool :=
  match r.lat with
  | some v => decide (-90 ≤ v) && decide (v ≤ 90)
  | none => false

/-- Predicate of `df["lon"].between(-180, 180)`: inclusive bounds, `False` on NaN. -/
def lonOk (r : Row) : Bool :=
  match r.lon with
  | some v => decide (-180 ≤ v) && decide (v ≤ 180)
  | none => false

/-- Geographic range validation (cleaning.py lines 55-58). -/
def rangeRows (t : Table) (l : List Row) : List Row :=
  let r1 := if t.hasLat then l.filter latOk else l
  if t.hasLon then r1.filter lonOk else r1

/-- Predicate of `df["mds"].isna() | (df["mds"] >= 0)`: keep missing or non-negative. -/
def mdsOk (r : Row) : Bool :=
  match r.mds with
  | some v => decide (0 ≤ v)
  | none => true

/-- Predicate of `df["mcg"].isna() | (df["mcg"] >= 0)`: keep missing or non-negative. -/
def mcgOk (r : Row) : Bool :=
  match r.mcg with
  | some v => decide (0 ≤ v)
  | none => true

/-- Non-negativity filter for `mds` and `mcg` (cleaning.py lines 60-62). -/
def nonnegRows (t : Table) (l : List Row) : List Row :=
  let r1 := if t.hasMds then l.filter mdsOk else l
  if t.hasMcg then r1.filter mcgOk else r1

/-- The non-missing values of a column. -/
def presentVals (xs : List (Option ℚ)) : List ℚ := xs.filterMap id

/-- Model of `Series.median()` with default `skipna=True`: the middle element of the
sorted non-missing values, or the mean of the two middle elements for an even
count; `none` (NaN) for an empty input. -/
def medianQ (xs : List ℚ) : Option ℚ :=
  let s := List.insertionSort (fun a b => a ≤ b) xs
  let n := s.length
  if n = 0 then none
  else if n % 2 = 1 then some (s.getD (n / 2) 0)
  else some ((s.getD (n / 2 - 1) 0 + s.getD (n / 2) 0) / 2)

/-- Model of `Series.mode(dropna=True).iloc[0]`: the smallest among the most frequent
values, `none` when there are no values at all. -/
def modeQ (xs : List ℚ) : Option ℚ :=
  xs.dedup.foldl
    (fun acc v =>
      match acc with
      | none => some v
      | some w =>
        if xs.count v > xs.count w ∨ (xs.count v = xs.count w ∧ v < w) then some v
        else some w)
    none

/-- Effect of `fillna` on the `mds` field: `r.mds.or m` fills a missing value with `m`
and is a no-op when `m` itself is missing (pandas `fillna(NaN)`). -/
def fillMds (m : Option ℚ) (r : Row) : Row := { r with mds := r.mds.or m }

/-- Effect of `fillna` on the `mcg` field. -/
def fillMcg (m : Option ℚ) (r : Row) : Row := { r with mcg := r.mcg.or m }

/-- Median imputation for `mds` (cleaning.py lines 64-66):
`if col in df.columns and df[col].isna().any(): df[col] = df[col].fillna(df[col].median())`. -/
def imputeMdsRows (t : Table) (l : List Row) : List Row :=
  if t.hasMds && l.any (fun r => r.mds.isNone) then
    l.map (fillMds (medianQ (presentVals (l.map (fun r => r.mds)))))
  else l

/-- Median imputation for `mcg` (cleaning.py lines 64-66). -/
def imputeMcgRows (t : Table) (l : List Row) : List Row :=
  if t.hasMcg && l.any (fun r => r.mcg.isNone) then
    l.map (fillMcg (medianQ (presentVals (l.map (fun r => r.mcg)))))
  else l

/-- Effect of `fillna` on the `status` field with an always-present fill value
(`mode_val.iloc[0] if len(mode_val) else 0`). -/
def fillStatus (v : ℚ) (r : Row) : Row := { r with status := r.status.or (some v) }

/-- Effect of `fillna` on the `region` field with an always-present fill value. -/
def fillRegion (v : ℚ) (r : Row) : Row := { r with region := r.region.or (some v) }

/-- Mode imputation for `status` (cleaning.py lines 68-72). -/
def imputeStatusRows (t : Table) (l : List Row) : List Row :=
  if t.hasStatus && l.any (fun r => r.status.isNone) then
    l.map (fillStatus ((modeQ (presentVals (l.map (fun r => r.status)))).getD 0))
  else l

/-- Mode imputation for `region` (cleaning.py lines 68-72). -/
def imputeRegionRows (t : Table) (l : List Row) : List Row :=
  if t.hasRegion && l.any (fun r => r.region.isNone) then
    l.map (fillRegion ((modeQ (presentVals (l.map (fun r => r.region)))).getD 0))
  else l

/-- Model of `Series.round()` (numpy semantics): round half to even. -/
def roundHalfEven (q : ℚ) : Int :=
  let f := ⌊q⌋
  if q - f < 1 / 2 then f
  else if 1 / 2 < q - f then f + 1
  else if f % 2 = 0 then f else f + 1

/-- Integer finalization of one `region` cell. -/
def roundRegionRow (r : Row) : Row :=
  { r with region := r.region.map (fun q => ((roundHalfEven q : Int) : ℚ)) }

/-- Integer finalization of one `status` cell. -/
def roundStatusRow (r : Row) : Row :=
  { r with status := r.status.map (fun q => ((roundHalfEven q : Int) : ℚ)) }

/-- Step `df["region"] = df["region"].round().astype("Int64")` (cleaning.py line 75). -/
def roundRegionRows (t : Table) (l : List Row) : List Row :=
  if t.hasRegion then l.map roundRegionRow else l

/-- Step `df["status"] = df["status"].round().astype("Int64")` (cleaning.py line 77). -/
def roundStatusRows (t : Table) (l : List Row) : List Row :=
  if t.hasStatus then l.map roundStatusRow else l

/-- The deduplication key: the values of the present columns among
`time, lat, lon, region` (an absent column contributes a constant). -/
def essKey (t : Table) (r : Row) : Option Int × Option ℚ × Option ℚ × Option ℚ :=
  (if t.hasTime then r.time else none,
   if t.hasLat then r.lat else none,
   if t.hasLon then r.lon else none,
   if t.hasRegion then r.region else none)

/-- Core of `drop_duplicates(keep="first")`: keep a row iff its key has not been seen
in an earlier row.  `seen` accumulates the keys of already-kept rows. -/
def dedupByAux {α κ : Type} [DecidableEq κ] (key : α → κ) : List α → List κ → List α
  | [], _ => []
  | r :: rs, seen =>
    if key r ∈ seen then dedupByAux key rs seen
    else r :: dedupByAux key rs (key r :: seen)

/-- Step `df.drop_duplicates(subset=[essential cols present])` (cleaning.py
lines 79-81); skipped when none of the key columns is present. -/
def dedupRows (t : Table) (l : List Row) : List Row :=
  if t.hasTime || t.hasLat || t.hasLon || t.hasRegion then
    dedupByAux (essKey t) l []
  else l

/-- The row list of `clean_and_types` up to but excluding the final
deduplication step: type coercion (identity on the model's value domain),
essential-field drop, range validation, non-negativity filter, median and
mode imputation and integer finalization of the code columns, in source
order. -/
def cleanBeforeDedupRows (t : Table) : List Row :=
  roundStatusRows t (roundRegionRows t (imputeRegionRows t (imputeStatusRows t
    (imputeMcgRows t (imputeMdsRows t (nonnegRows t (rangeRows t (dropEssentialRows t t.rows))))))))

/-- Model of `clean_and_types` (cleaning.py lines 4-83).  The column set is unchanged;
only the rows are transformed. -/
def clean_and_types (t : Table) : Table :=
  { t with rows := dedupRows t (cleanBeforeDedupRows t) }

/-- Civil date from a day count since 1970-01-01 (proleptic Gregorian;
the algorithm used by `datetime64` accessors).  Returns (year, month, day). -/
def civilFromDays (z0 : Int) : Int × Int × Int :=
  let z := z0 + 719468
  let era := z.fdiv 146097
  let doe := z - era * 146097
  let yoe := (doe - doe.fdiv 1460 + doe.fdiv 36524 - doe.fdiv 146096).fdiv 365
  let y := yoe + era * 400
  let doy := doe - (365 * yoe + yoe.fdiv 4 - yoe.fdiv 100)
  let mp := (5 * doy + 2).fdiv 153
  let d := doy - (153 * mp + 2).fdiv 5 + 1
  let m := mp + (if mp < 10 then 3 else -9)
  (if m ≤ 2 then y + 1 else y, m, d)

/-- Nanoseconds per day. -/
def nsPerDay : Int := 86400000000000

/-- Second-of-day of a nanosecond timestamp. -/
def secOfDay (ns : Int) : Int := (ns.fmod nsPerDay).fdiv 1000000000

/-- Model of `Series.dt.year` on a nanosecond timestamp. -/
def yearOf (ns : Int) : Int := (civilFromDays (ns.fdiv nsPerDay)).1

/-- Model of `Series.dt.month` on a nanosecond timestamp. -/
def monthOf (ns : Int) : Int := (civilFromDays (ns.fdiv nsPerDay)).2.1

/-- Model of `Series.dt.day` on a nanosecond timestamp. -/
def dayOf (ns : Int) : Int := (civilFromDays (ns.fdiv nsPerDay)).2.2

/-- Model of `Series.dt.hour` on a nanosecond timestamp. -/
def hourOf (ns : Int) : Int := (secOfDay ns).fdiv 3600

/-- Model of `Series.dt.minute` on a nanosecond timestamp. -/
def minuteOf (ns : Int) : Int := ((secOfDay ns).fmod 3600).fdiv 60

/-- Model of `Series.dt.second` on a nanosecond timestamp. -/
def secondOf (ns : Int) : Int := (secOfDay ns).fmod 60

/-- Expansion of one row by the six calendar features of its `time` cell
(`dt.year` of NaT is NaN, modelled by `Option.map`). -/
def timeFeatureRow (r : Row) : Row :=
  { r with
    year := r.time.map yearOf, month := r.time.map monthOf,
    day := r.time.map dayOf, hour := r.time.map hourOf,
    minute := r.time.map minuteOf, second := r.time.map secondOf }

/-- Model of `add_time_features` (cleaning.py lines 86-121): no-op when `time` is
absent, otherwise adds the six integer calendar columns derived from `time`. -/
def add_time_features (t : Table) : Table :=
  if t.hasTime then
    { t with
      hasYear := true, hasMonth := true, hasDay := true,
      hasHour := true, hasMinute := true, hasSecond := true,
      rows := t.rows.map timeFeatureRow }
  else t

/-- Row facts established by the three filter stages. -/
def RowSpecA (t : Table) (r : Row) : Prop :=
  essKeep t r = true ∧
  (t.hasLat = true → latOk r = true) ∧
  (t.hasLon = true → lonOk r = true) ∧
  (t.hasMds = true → mdsOk r = true) ∧
  (t.hasMcg = true → mcgOk r = true)

/-- The full bundle of row facts after the pre-dedup cleaning stages. -/
def RowSpec (t : Table) (r : Row) : Prop :=
  RowSpecA t r ∧
  (t.hasStatus = true → ∃ k : ℤ, r.status = some (k : ℚ)) ∧
  (t.hasRegion = true → ∃ k : ℤ, r.region = some (k : ℚ))

/-- Either the field is missing in every row, or present in every row. -/
def FieldAON (f : Row → Option ℚ) (l : List Row) : Prop :=
  (∀ r ∈ l, f r = none) ∨ (∀ r ∈ l, (f r).isSome = true)

/-- A convenient all-columns-present schema for witness tables. -/
def fullSchema (l : List Row) : Table :=
  { hasTime := true, hasLat := true, hasLon := true, hasRegion := true,
    hasMds := true, hasMcg := true, hasStatus := true,
    hasYear := false, hasMonth := false, hasDay := false,
    hasHour := false, hasMinute := false, hasSecond := false, rows := l }

/-- A row of the seven CSV columns with no derived features. -/
def mkRow (time : Option Int) (lat lon region mds mcg status : Option ℚ) : Row :=
  ⟨time, lat, lon, region, mds, mcg, status, none, none, none, none, none, none⟩

def wT1 : Table := fullSchema
  [mkRow (some 5000000000) (some 10) (some 20) (some 1) (some 5) (some 7) (some 0)]

def wR1 : Row := mkRow (some 5000000000) (some 10) (some 20) (some 1) (some 5) (some 7) (some 0)

def wT2 : Table := fullSchema
  [mkRow (some 5000000000) (some 10) (some 20) (some 1) (some 5) (some 7) (some 0),
   mkRow (some 5000000000) (some 10) (some 20) (some 1) (some 6) (some 8) (some 2)]

def wT4 : Table :=
  { hasTime := true, hasLat := true, hasLon := true, hasRegion := true,
    hasMds := true, hasMcg := false, hasStatus := false,
    hasYear := false, hasMonth := false, hasDay := false,
    hasHour := false, hasMinute := false, hasSecond := false,
    rows := [mkRow (some 0) (some 0) (some 0) (some 1) none none none] }

def wT8 : Table := fullSchema
  [mkRow (some 1735689600000000000) (some 1) (some 2) (some 3) (some 4) (some 5) (some 6)]

/-- Test `c in df.columns` for the thirteen known pipeline columns. -/
def hasCol (t : Table) (c : String) : Bool :=
  match c with
  | "time" => t.hasTime
  | "lat" => t.hasLat
  | "lon" => t.hasLon
  | "region" => t.hasRegion
  | "mds" => t.hasMds
  | "mcg" => t.hasMcg
  | "status" => t.hasStatus
  | "year" => t.hasYear
  | "month" => t.hasMonth
  | "day" => t.hasDay
  | "hour" => t.hasHour
  | "minute" => t.hasMinute
  | "second" => t.hasSecond
  | _ => false

/-- The cell of a row in a named column (timestamps and calendar features read
as their integer value). -/
def colVal (r : Row) (c : String) : Option ℚ :=
  match c with
  | "time" => r.time.map (fun n => (n : ℚ))
  | "lat" => r.lat
  | "lon" => r.lon
  | "region" => r.region
  | "mds" => r.mds
  | "mcg" => r.mcg
  | "status" => r.status
  | "year" => r.year.map (fun n => (n : ℚ))
  | "month" => r.month.map (fun n => (n : ℚ))
  | "day" => r.day.map (fun n => (n : ℚ))
  | "hour" => r.hour.map (fun n => (n : ℚ))
  | "minute" => r.minute.map (fun n => (n : ℚ))
  | "second" => r.second.map (fun n => (n : ℚ))
  | _ => none

/-- A named column of a table, in row order. -/
def colList (t : Table) (c : String) : List (Option ℚ) := t.rows.map (fun r => colVal r c)

/-- The allow-list of `correlation_matrix` (analysis.py lines 159-162). -/
def corrAllow : List String :=
  ["lat", "lon", "region", "mds", "mcg", "month", "day", "hour", "minute", "second"]

/-- The allow-list restricted to the columns actually present
(analysis.py line 163). -/
def corrCols (t : Table) : List String := corrAllow.filter (hasCol t)

/-- Pairwise-complete observation: both cells present. -/
def pairPresent : Option ℚ × Option ℚ → Option (ℚ × ℚ)
  | (some x, some y) => some (x, y)
  | _ => none

/-- Arithmetic mean (0 for an empty list, matching `0 / 0 = 0` in `ℚ`). -/
def qmean (xs : List ℚ) : ℚ := xs.sum / xs.length

/-- Sum of squared deviations from the mean — the numerator of the variance,
which is zero exactly for columns with zero variance. -/
def sumSqDev (xs : List ℚ) : ℚ := (xs.map (fun x => (x - qmean xs) ^ 2)).sum

/-- Sum of cross deviations — the numerator of the covariance. -/
def sumCross (ps : List (ℚ × ℚ)) : ℚ :=
  (ps.map (fun p =>
    (p.1 - qmean (ps.map Prod.fst)) * (p.2 - qmean (ps.map Prod.snd)))).sum

/-- One Pearson-correlation cell of `DataFrame.corr()`: computed over the
pairwise-complete observations of the two columns; NaN (`none`) when there are
no such observations or either sample standard deviation is zero. -/
noncomputable def corrEntry (xs ys : List (Option ℚ)) : Option ℝ :=
  let ps := (xs.zip ys).filterMap pairPresent
  let sxx := sumSqDev (ps.map Prod.fst)
  let syy := sumSqDev (ps.map Prod.snd)
  if ps = [] ∨ sxx = 0 ∨ syy = 0 then none
  else some ((sumCross ps : ℝ) / Real.sqrt ((sxx * syy : ℚ) : ℝ))

/-- A correlation matrix: the same column labels on both axes (`DataFrame.corr`
returns a frame whose index equals its columns), and a row-major grid of
entries (`none` is NaN). -/
structure CorrMat (α : Type) where
  cols : List String
  vals : List (List (Option α))

/-- Model of `correlation_matrix` (analysis.py lines 140-164). -/
noncomputable def correlation_matrix (t : Table) : CorrMat ℝ :=
  { cols := corrCols t,
    vals := (corrCols t).map (fun a => (corrCols t).map (fun b =>
      corrEntry (colList t a) (colList t b))) }

/-- Grid access by position, `none` out of bounds. -/
def entryAt {α : Type} (M : CorrMat α) (i j : ℕ) : Option α :=
  (M.vals.getD i []).getD j none

/-- Descending order of absolute value (`sort_values(key=abs, ascending=False)`). -/
def absGe (a b : String × ℚ) : Prop := |b.2| ≤ |a.2|

instance : DecidableRel absGe := fun a b => inferInstanceAs (Decidable (|b.2| ≤ |a.2|))

instance : IsTotal (String × ℚ) absGe := ⟨fun _ _ => le_total _ _⟩

instance : IsTrans (String × ℚ) absGe := ⟨fun _ _ _ h1 h2 => le_trans h2 h1⟩

/-- Model of `corr[target].drop(labels=[target]).dropna()` (analysis.py line 198): the
entries of the target's column, labelled by the row labels, with the
self-correlation row and the missing entries removed. -/
def targetEntries (M : CorrMat ℚ) (target : String) : List (String × ℚ) :=
  (M.cols.zip M.vals).filterMap (fun p =>
    if p.1 = target then none
    else
      match p.2.getD (M.cols.indexOf target) none with
      | some v => some (p.1, v)
      | none => none)

/-- Model of `top_correlations` (analysis.py lines 167-200).  Stated over rational
matrices: every floating-point matrix is one.  Ties are ordered by a stable
sort; pandas leaves tie order unspecified (`kind="quicksort"`). -/
def top_correlations (M : CorrMat ℚ) (target : String) (n : ℕ) : List (String × ℚ) :=
  if M.cols.contains target then
    (List.insertionSort absGe (targetEntries M target)).take n
  else []

/-- A pandas `KeyError` raised by selecting absent columns. -/
inductive PyError where
  | keyError (missing : List String)
deriving DecidableEq

/-- The deterministic scikit-learn primitives used by the regression:
`train_test_split` (an index partition that is a pure function of sample
count, test fraction and `random_state`), ordinary-least-squares fitting, and
float square root.  The embedding is parameterized over them: every claim
below holds for every such deterministic implementation. -/
structure SkLib where
  splitIdx : ℕ → ℚ → ℕ → List ℕ × List ℕ
  lstsq : List (List ℚ) → List ℚ → List ℚ × ℚ
  sqrtQ : ℚ → ℚ

/-- The success payload of `linear_regression_mcg` (the `ok = True` dict): the
fitted model is carried as its coefficients and intercept. -/
structure RegSuccess where
  features : List String
  target : String
  n_rows : ℕ
  test_size : ℚ
  mae : ℚ
  rmse : ℚ
  r2 : ℚ
  intercept : ℚ
  coefficients : List (String × ℚ)
  one_hot_region : Bool
deriving DecidableEq

/-- The tagged result dict of `linear_regression_mcg`: `failure` is the
`ok = False` dict, which carries only a reason, the feature list and the
target name — no model artifacts. -/
inductive RegResult where
  | failure (reason : String) (features : List String) (target : String)
  | success (payload : RegSuccess)
deriving DecidableEq

/-- The default candidate feature list (analysis.py line 254). -/
def candidateFeatures : List String := ["mds", "hour", "region", "lat", "lon", "month"]

/-- The chosen feature columns (analysis.py lines 253-255). -/
def regFeatures (t : Table) (fc : Option (List String)) : List String :=
  match fc with
  | some l => l
  | none => candidateFeatures.filter (hasCol t)

/-- List `needed = feature_cols + [target_col]` (analysis.py line 257). -/
def regNeeded (t : Table) (fc : Option (List String)) (target_col : String) : List String :=
  regFeatures t fc ++ [target_col]

/-- The rows of `df[names]`, row-major. -/
def selRows (t : Table) (names : List String) : List (List (Option ℚ)) :=
  t.rows.map (fun r => names.map (colVal r))

/-- Selection `df[needed]`: raises `KeyError` listing the absent columns when any
requested column is missing. -/
def selectCols (t : Table) (names : List String) : Except PyError (List (List (Option ℚ))) :=
  if names.all (hasCol t) then .ok (selRows t names)
  else .error (.keyError (names.filter (fun c => !hasCol t c)))

/-- Effect of `.dropna()` on the selected frame: the complete-case rows, values
extracted. -/
def completeRows (sel : List (List (Option ℚ))) : List (List ℚ) :=
  (sel.filter (fun row => row.all Option.isSome)).map (fun row => row.filterMap id)

/-- Dot product of a feature row with the coefficient vector. -/
def dotProd (xs ys : List ℚ) : ℚ := ((xs.zip ys).map (fun p => p.1 * p.2)).sum

/-- One-hot encoding of the `region` feature (analysis.py lines 271-273):
`region` becomes a category column whose categories are the sorted distinct
values; `get_dummies(..., drop_first=True)` removes the `region` column,
drops the first (smallest) category and appends one indicator column per
remaining category. -/
def oneHot (names : List String) (X : List (List ℚ)) (ohr : Bool) :
    List String × List (List ℚ) :=
  if ohr && names.contains "region" then
    let ri := names.indexOf "region"
    let cats := (List.insertionSort (fun a b => a ≤ b)
      (X.map (fun row => row.getD ri 0)).dedup).drop 1
    (names.eraseIdx ri ++ cats.map (fun c => "region_" ++ toString c),
     X.map (fun row => row.eraseIdx ri ++
       cats.map (fun c => if row.getD ri 0 = c then (1 : ℚ) else 0)))
  else (names, X)

/-- Model of `linear_regression_mcg` (analysis.py lines 203-303), parameterized by the
deterministic scikit-learn primitives.  An uncaught `KeyError` from the column
selection is modelled as `Except.error`. -/
def linear_regression_mcg (lib : SkLib) (df : Table) (feature_cols : Option (List String))
    (target_col : String) (test_size : ℚ) (random_state : ℕ) (one_hot_region : Bool) :
    Except PyError RegResult :=
  let fcols := regFeatures df feature_cols
  match selectCols df (fcols ++ [target_col]) with
  | .error e => .error e
  | .ok sel =>
    let d := completeRows sel
    if d.length < 10 then
      .ok (.failure ("Not enough data after dropna(): " ++ toString d.length ++ " rows")
        fcols target_col)
    else
      let y := d.map (fun row => row.getD fcols.length 0)
      let enc := oneHot fcols (d.map (fun row => row.take fcols.length)) one_hot_region
      let idx := lib.splitIdx d.length test_size random_state
      let fit := lib.lstsq (idx.1.filterMap (fun i => enc.2.get? i))
        (idx.1.filterMap (fun i => y.get? i))
      let ytest := idx.2.filterMap (fun i => y.get? i)
      let ypred := (idx.2.filterMap (fun i => enc.2.get? i)).map
        (fun row => dotProd row fit.1 + fit.2)
      let errs := (ytest.zip ypred).map (fun p => p.1 - p.2)
      .ok (.success
        { features := enc.1
          target := target_col
          n_rows := d.length
          test_size := test_size
          mae := (errs.map (fun e => |e|)).sum / ytest.length
          rmse := lib.sqrtQ ((errs.map (fun e => e ^ 2)).sum / ytest.length)
          r2 := 1 - (errs.map (fun e => e ^ 2)).sum / sumSqDev ytest
          intercept := fit.2
          coefficients := List.insertionSort absGe (enc.1.zip fit.1)
          one_hot_region := one_hot_region })

/-- The train/test index partition the regression computes for a table
(trivial when the column selection raises). -/
def regSplit (lib : SkLib) (t : Table) (fcl : List String) (tc : String)
    (ts : ℚ) (seed : ℕ) : List ℕ × List ℕ :=
  match selectCols t (fcl ++ [tc]) with
  | .error _ => ([], [])
  | .ok sel => lib.splitIdx (completeRows sel).length ts seed

def trivLib : SkLib :=
  { splitIdx := fun n _ _ => (List.range n, []),
    lstsq := fun _ _ => ([], 0),
    sqrtQ := fun q => q }

def wT5 : Table := fullSchema []

def wT9a : Table := fullSchema
  [mkRow (some 1) (some 10) (some 20) (some 1) (some 5) (some 7) (some 0)]

def wT9b : Table := fullSchema
  [mkRow (some 2) (some 10) (some 20) (some 2) (some 6) (some 7) (some 3)]

def wT10 : Table :=
  { hasTime := true, hasLat := true, hasLon := true, hasRegion := true,
    hasMds := true, hasMcg := false, hasStatus := true,
    hasYear := false, hasMonth := false, hasDay := false,
    hasHour := false, hasMinute := false, hasSecond := false,
    rows := [mkRow (some 1) (some 10) (some 20) (some 1) (some 5) none (some 0)] }

def wM6 : CorrMat ℚ :=
  { cols := ["mds", "mcg", "lat"],
    vals := [[some 1, some (1 / 2), some (-3 / 4)],
             [some (1 / 2), some 1, some (1 / 4)],
             [some (-3 / 4), some (1 / 4), some 1]] }

def wT7 : Table :=
  { hasTime := false, hasLat := true, hasLon := false, hasRegion := false,
    hasMds := false, hasMcg := false, hasStatus := false,
    hasYear := false, hasMonth := false, hasDay := false,
    hasHour := false, hasMinute := false, hasSecond := false,
    rows := [mkRow none (some 0) none none none none none,
             mkRow none (some 2) none none none none none] }

/-- Rows entering the imputation steps: the survivors of type coercion,
essential-field drop, range validation and the non-negativity filter. -/
def preImpute (t : Table) : List Row :=
  nonnegRows t (rangeRows t (dropEssentialRows t t.rows))

/-- The fill value of the `mds` imputation: the column median over the
present values of the rows entering imputation (missing for an all-missing
column). -/
def mdsFill (t : Table) : Option ℚ :=
  medianQ (presentVals ((preImpute t).map (fun r => r.mds)))

/-- The fill value of the `mcg` imputation. -/
def mcgFill (t : Table) : Option ℚ :=
  medianQ (presentVals ((preImpute t).map (fun r => r.mcg)))

/-- The fill value of the `status` imputation: the column mode, or 0 when no
mode exists. -/
def statusFill (t : Table) : ℚ :=
  (modeQ (presentVals ((preImpute t).map (fun r => r.status)))).getD 0

/-- The fill value of the `region` imputation: the column mode, or 0 when no
mode exists. -/
def regionFill (t : Table) : ℚ :=
  (modeQ (presentVals ((preImpute t).map (fun r => r.region)))).getD 0

/-- A witness table exercising real imputation: the second row has missing
`mds` and `status`; the present values give median 4 and mode 3. -/
def wT4i : Table := fullSchema
  [mkRow (some 1) (some 0) (some 0) (some 1) (some 4) (some 2) (some 3),
   mkRow (some 2) (some 0) (some 0) (some 1) none (some 2) none]

theorem dedupByAux_sublist {α κ : Type} [DecidableEq κ] (key : α → κ) :
    ∀ (l : List α) (seen : List κ), (dedupByAux key l seen).Sublist l := by
  intro l
  induction l with
  | nil => intro seen; simp [dedupByAux]
  | cons r rs ih =>
    intro seen
    simp only [dedupByAux]
    split
    · exact (ih seen).trans (List.sublist_cons_self r rs)
    · exact (ih _).cons₂ r

theorem mem_of_mem_dedupByAux {α κ : Type} [DecidableEq κ] {key : α → κ}
    {l : List α} {seen : List κ} {a : α} (h : a ∈ dedupByAux key l seen) : a ∈ l :=
  (dedupByAux_sublist key l seen).mem h

theorem key_not_seen_of_mem_dedupByAux {α κ : Type} [DecidableEq κ] {key : α → κ} :
    ∀ {l : List α} {seen : List κ} {a : α}, a ∈ dedupByAux key l seen → key a ∉ seen := by
  intro l
  induction l with
  | nil => intro seen a h; simp [dedupByAux] at h
  | cons r rs ih =>
    intro seen a h
    simp only [dedupByAux] at h
    split at h
    · exact ih h
    · rename_i hnotin
      rcases List.mem_cons.mp h with rfl | h2
      · exact hnotin
      · intro hmem
        exact ih h2 (List.mem_cons_of_mem _ hmem)

theorem pairwise_dedupByAux {α κ : Type} [DecidableEq κ] {key : α → κ} :
    ∀ (l : List α) (seen : List κ),
      List.Pairwise (fun a b => key a ≠ key b) (dedupByAux key l seen) := by
  intro l
  induction l with
  | nil => intro seen; simp [dedupByAux]
  | cons r rs ih =>
    intro seen
    simp only [dedupByAux]
    split
    · exact ih seen
    · refine List.Pairwise.cons ?_ (ih _)
      intro b hb heq
      exact key_not_seen_of_mem_dedupByAux hb (heq ▸ List.mem_cons_self _ _)

theorem find?_dedupByAux {α κ : Type} [DecidableEq κ] {key : α → κ} :
    ∀ {l : List α} {seen : List κ} {a : α}, a ∈ dedupByAux key l seen →
      l.find? (fun s => decide (key s = key a)) = some a := by
  intro l
  induction l with
  | nil => intro seen a h; simp [dedupByAux] at h
  | cons r rs ih =>
    intro seen a h
    simp only [dedupByAux] at h
    split at h
    · rename_i hseen
      have hne : key r ≠ key a := by
        intro he
        exact key_not_seen_of_mem_dedupByAux h (he ▸ hseen)
      rw [List.find?_cons_of_neg _ (by simpa using hne)]
      exact ih h
    · rcases List.mem_cons.mp h with rfl | h2
      · exact List.find?_cons_of_pos _ (by simp)
      · have hne : key r ≠ key a := by
          intro he
          exact key_not_seen_of_mem_dedupByAux h2 (he ▸ List.mem_cons_self _ _)
        rw [List.find?_cons_of_neg _ (by simpa using hne)]
        exact ih h2

theorem dedupByAux_eq_self {α κ : Type} [DecidableEq κ] {key : α → κ} :
    ∀ {l : List α} {seen : List κ},
      List.Pairwise (fun a b => key a ≠ key b) l → (∀ a ∈ l, key a ∉ seen) →
      dedupByAux key l seen = l := by
  intro l
  induction l with
  | nil => intro seen _ _; rfl
  | cons r rs ih =>
    intro seen hp hs
    simp only [dedupByAux]
    rw [if_neg (hs r (List.mem_cons_self _ _))]
    congr 1
    refine ih (List.Pairwise.of_cons hp) ?_
    intro a ha
    simp only [List.mem_cons]
    rintro (he | hmem)
    · exact (List.pairwise_cons.mp hp).1 a ha he.symm
    · exact hs a (List.mem_cons_of_mem _ ha) hmem

theorem fillMds_of_isSome (m : Option ℚ) (r : Row) (h : r.mds.isSome = true) :
    fillMds m r = r := by
  cases r with
  | mk time lat lon region mds mcg status y mo d hh mi se =>
    cases mds with
    | none => simp at h
    | some v => rfl

theorem fillMcg_of_isSome (m : Option ℚ) (r : Row) (h : r.mcg.isSome = true) :
    fillMcg m r = r := by
  cases r with
  | mk time lat lon region mds mcg status y mo d hh mi se =>
    cases mcg with
    | none => simp at h
    | some v => rfl

theorem fillMds_none (r : Row) : fillMds none r = r := by
  cases r with
  | mk time lat lon region mds mcg status y mo d hh mi se =>
    cases mds <;> rfl

theorem fillMcg_none (r : Row) : fillMcg none r = r := by
  cases r with
  | mk time lat lon region mds mcg status y mo d hh mi se =>
    cases mcg <;> rfl

theorem fillStatus_of_isSome (v : ℚ) (r : Row) (h : r.status.isSome = true) :
    fillStatus v r = r := by
  cases r with
  | mk time lat lon region mds mcg status y mo d hh mi se =>
    cases status with
    | none => simp at h
    | some w => rfl

theorem fillRegion_of_isSome (v : ℚ) (r : Row) (h : r.region.isSome = true) :
    fillRegion v r = r := by
  cases r with
  | mk time lat lon region mds mcg status y mo d hh mi se =>
    cases region with
    | none => simp at h
    | some w => rfl

theorem getD_nonneg {l : List ℚ} (h : ∀ x ∈ l, 0 ≤ x) (i : ℕ) : 0 ≤ l.getD i 0 := by
  rw [List.getD_eq_getElem?_getD]
  cases hx : l[i]? with
  | none => simp
  | some x =>
    obtain ⟨hi, he⟩ := List.getElem?_eq_some.mp hx
    simpa using h x (he ▸ List.getElem_mem hi)

theorem medianQ_nonneg {xs : List ℚ} (h : ∀ x ∈ xs, 0 ≤ x) {m : ℚ}
    (hm : medianQ xs = some m) : 0 ≤ m := by
  have hs : ∀ x ∈ List.insertionSort (fun a b => a ≤ b) xs, 0 ≤ x := by
    intro x hx
    exact h x ((List.perm_insertionSort _ xs).mem_iff.mp hx)
  simp only [medianQ] at hm
  split at hm
  · exact absurd hm (by simp)
  · split at hm
    · rw [Option.some_inj] at hm
      exact hm ▸ getD_nonneg hs _
    · rw [Option.some_inj] at hm
      refine hm ▸ div_nonneg (add_nonneg (getD_nonneg hs _) (getD_nonneg hs _)) (by norm_num)

theorem medianQ_eq_none {xs : List ℚ} (hm : medianQ xs = none) : xs = [] := by
  simp only [medianQ] at hm
  split at hm
  · rename_i hn
    have hp := (List.perm_insertionSort (fun a b => a ≤ b) xs).length_eq
    rw [List.length_eq_zero] at hn
    rw [hn] at hp
    exact List.length_eq_zero.mp hp.symm
  · split at hm <;> simp at hm

theorem mem_presentVals {xs : List (Option ℚ)} {x : ℚ} :
    x ∈ presentVals xs ↔ some x ∈ xs := by
  simp only [presentVals, List.mem_filterMap, id]
  constructor
  · rintro ⟨o, ho, rfl⟩
    exact ho
  · intro h
    exact ⟨some x, h, rfl⟩

theorem medianCol_nonneg {l : List Row} {f : Row → Option ℚ}
    (h : ∀ r ∈ l, ∀ v, f r = some v → 0 ≤ v) :
    ∀ v, medianQ (presentVals (l.map f)) = some v → 0 ≤ v := by
  intro v hv
  refine medianQ_nonneg ?_ hv
  intro x hx
  obtain ⟨o, ho, hxo⟩ := List.mem_filterMap.mp hx
  obtain ⟨r, hrl, rfl⟩ := List.mem_map.mp ho
  exact h r hrl x hxo

theorem essKeep_time {t : Table} {r : Row} (h : essKeep t r = true)
    (ht : t.hasTime = true) : r.time.isSome = true := by
  unfold essKeep at h
  simp only [Bool.and_eq_true] at h
  have h1 := h.1.1.1
  rw [ht] at h1
  simpa using h1

theorem essKeep_region_isSome {t : Table} {r : Row} (h : essKeep t r = true)
    (ht : t.hasRegion = true) : r.region.isSome = true := by
  unfold essKeep at h
  simp only [Bool.and_eq_true] at h
  have h4 := h.2
  rw [ht] at h4
  simpa using h4

theorem essKeep_fillRegion {t : Table} (v : ℚ) {r : Row} (h : essKeep t r = true) :
    essKeep t (fillRegion v r) = true := by
  have hre : (fillRegion v r).region.isSome = true := by
    cases hr : r.region <;> simp [fillRegion, Option.or, hr]
  have h1 : (fillRegion v r).time = r.time := rfl
  have h2 : (fillRegion v r).lat = r.lat := rfl
  have h3 : (fillRegion v r).lon = r.lon := rfl
  unfold essKeep at h ⊢
  rw [h1, h2, h3, hre]
  simp only [Bool.or_true, Bool.and_true]
  simp only [Bool.and_eq_true] at h ⊢
  exact ⟨⟨h.1.1.1, h.1.1.2⟩, h.1.2⟩

theorem essKeep_roundRegionRow {t : Table} {r : Row} (h : essKeep t r = true) :
    essKeep t (roundRegionRow r) = true := by
  unfold essKeep at h ⊢
  unfold roundRegionRow
  simp only [Bool.and_eq_true] at h ⊢
  refine ⟨⟨⟨h.1.1.1, h.1.1.2⟩, h.1.2⟩, ?_⟩
  have h4 := h.2
  cases hr : r.region with
  | none => rw [hr] at h4; simpa using h4
  | some w => simp

theorem mem_ite_map {c : Prop} [Decidable c] {l : List Row} {g : Row → Row} {r : Row}
    (hr : r ∈ (if c then l.map g else l)) :
    (∃ r0 ∈ l, r = g r0) ∨ r ∈ l := by
  split at hr
  · obtain ⟨r0, h0, rfl⟩ := List.mem_map.mp hr
    exact Or.inl ⟨r0, h0, rfl⟩
  · exact Or.inr hr

theorem mdsOk_fillMds {m : Option ℚ} (hm : ∀ v, m = some v → 0 ≤ v) {r : Row}
    (hr : mdsOk r = true) : mdsOk (fillMds m r) = true := by
  have hmds : (fillMds m r).mds = r.mds.or m := rfl
  unfold mdsOk at hr ⊢
  rw [hmds]
  cases h0 : r.mds with
  | some v => rw [h0] at hr; simpa [Option.or] using hr
  | none =>
    cases hm1 : m with
    | none => simp [Option.or]
    | some w => simpa [Option.or] using hm w hm1

theorem mcgOk_fillMcg {m : Option ℚ} (hm : ∀ v, m = some v → 0 ≤ v) {r : Row}
    (hr : mcgOk r = true) : mcgOk (fillMcg m r) = true := by
  have hmcg : (fillMcg m r).mcg = r.mcg.or m := rfl
  unfold mcgOk at hr ⊢
  rw [hmcg]
  cases h0 : r.mcg with
  | some v => rw [h0] at hr; simpa [Option.or] using hr
  | none =>
    cases hm1 : m with
    | none => simp [Option.or]
    | some w => simpa [Option.or] using hm w hm1

theorem status_some_imputeStatusRows {t : Table} (ht : t.hasStatus = true)
    (l : List Row) : ∀ r ∈ imputeStatusRows t l, r.status.isSome = true := by
  intro r hr
  simp only [imputeStatusRows] at hr
  split at hr
  · obtain ⟨r0, h0, rfl⟩ := List.mem_map.mp hr
    cases h : r0.status <;> simp [fillStatus, Option.or, h]
  · rename_i hg
    rw [ht, Bool.true_and] at hg
    simp only [Bool.not_eq_true] at hg
    have hne := List.any_eq_false.mp hg r hr
    cases h : r.status with
    | none => rw [h] at hne; simp at hne
    | some v => simp

theorem rowSpecA_filters (t : Table) :
    ∀ r ∈ nonnegRows t (rangeRows t (dropEssentialRows t t.rows)), RowSpecA t r := by
  intro r hr
  simp only [nonnegRows] at hr
  have hr1 : r ∈ rangeRows t (dropEssentialRows t t.rows) ∧
      (t.hasMds = true → mdsOk r = true) ∧ (t.hasMcg = true → mcgOk r = true) := by
    by_cases hm : t.hasMds = true <;> by_cases hc : t.hasMcg = true <;>
      simp only [hm, hc, if_true, if_false, List.mem_filter] at hr <;>
      refine ⟨?_, ?_, ?_⟩ <;> simp_all
  obtain ⟨hr1, hm, hc⟩ := hr1
  simp only [rangeRows] at hr1
  have hr2 : r ∈ dropEssentialRows t t.rows ∧
      (t.hasLat = true → latOk r = true) ∧ (t.hasLon = true → lonOk r = true) := by
    by_cases hla : t.hasLat = true <;> by_cases hlo : t.hasLon = true <;>
      simp only [hla, hlo, if_true, if_false, List.mem_filter] at hr1 <;>
      refine ⟨?_, ?_, ?_⟩ <;> simp_all
  obtain ⟨hr2, hlat, hlon⟩ := hr2
  simp only [dropEssentialRows] at hr2
  exact ⟨(List.mem_filter.mp hr2).2, hlat, hlon, hm, hc⟩

theorem rowSpecA_imputeMds (t : Table) (l : List Row) (H : ∀ r ∈ l, RowSpecA t r) :
    ∀ r ∈ imputeMdsRows t l, RowSpecA t r := by
  intro r hr
  simp only [imputeMdsRows] at hr
  split at hr
  · rename_i hg
    rw [Bool.and_eq_true] at hg
    obtain ⟨r0, h0, rfl⟩ := List.mem_map.mp hr
    obtain ⟨b1, b2, b3, b4, b5⟩ := H r0 h0
    have hmed : ∀ v, medianQ (presentVals (l.map (fun x => x.mds))) = some v → 0 ≤ v := by
      refine medianCol_nonneg ?_
      intro r1 h1 v hv
      have hm1 := (H r1 h1).2.2.2.1 hg.1
      unfold mdsOk at hm1
      rw [hv] at hm1
      simpa using hm1
    exact ⟨b1, b2, b3, fun _ => mdsOk_fillMds hmed (b4 hg.1), b5⟩
  · exact H r hr

theorem rowSpecA_imputeMcg (t : Table) (l : List Row) (H : ∀ r ∈ l, RowSpecA t r) :
    ∀ r ∈ imputeMcgRows t l, RowSpecA t r := by
  intro r hr
  simp only [imputeMcgRows] at hr
  split at hr
  · rename_i hg
    rw [Bool.and_eq_true] at hg
    obtain ⟨r0, h0, rfl⟩ := List.mem_map.mp hr
    obtain ⟨b1, b2, b3, b4, b5⟩ := H r0 h0
    have hmed : ∀ v, medianQ (presentVals (l.map (fun x => x.mcg))) = some v → 0 ≤ v := by
      refine medianCol_nonneg ?_
      intro r1 h1 v hv
      have hm1 := (H r1 h1).2.2.2.2 hg.1
      unfold mcgOk at hm1
      rw [hv] at hm1
      simpa using hm1
    exact ⟨b1, b2, b3, b4, fun _ => mcgOk_fillMcg hmed (b5 hg.1)⟩
  · exact H r hr

theorem rowSpecA_imputeStatus (t : Table) (l : List Row) (H : ∀ r ∈ l, RowSpecA t r) :
    ∀ r ∈ imputeStatusRows t l,
      RowSpecA t r ∧ (t.hasStatus = true → r.status.isSome = true) := by
  intro r hr
  refine ⟨?_, fun hs => status_some_imputeStatusRows hs l r hr⟩
  simp only [imputeStatusRows] at hr
  rcases mem_ite_map hr with ⟨r0, h0, rfl⟩ | hmem
  · exact H r0 h0
  · exact H r hmem

theorem rowSpecA_imputeRegion (t : Table) (l : List Row)
    (H : ∀ r ∈ l, RowSpecA t r ∧ (t.hasStatus = true → r.status.isSome = true)) :
    ∀ r ∈ imputeRegionRows t l,
      RowSpecA t r ∧ (t.hasStatus = true → r.status.isSome = true) := by
  intro r hr
  simp only [imputeRegionRows] at hr
  rcases mem_ite_map hr with ⟨r0, h0, rfl⟩ | hmem
  · obtain ⟨⟨b1, b2, b3, b4, b5⟩, b6⟩ := H r0 h0
    exact ⟨⟨essKeep_fillRegion _ b1, b2, b3, b4, b5⟩, b6⟩
  · exact H r hmem

theorem rowSpec_roundRegion (t : Table) (l : List Row)
    (H : ∀ r ∈ l, RowSpecA t r ∧ (t.hasStatus = true → r.status.isSome = true)) :
    ∀ r ∈ roundRegionRows t l,
      RowSpecA t r ∧ (t.hasStatus = true → r.status.isSome = true) ∧
      (t.hasRegion = true → ∃ k : ℤ, r.region = some (k : ℚ)) := by
  intro r hr
  simp only [roundRegionRows] at hr
  split at hr
  · obtain ⟨r0, h0, rfl⟩ := List.mem_map.mp hr
    obtain ⟨⟨b1, b2, b3, b4, b5⟩, b6⟩ := H r0 h0
    refine ⟨⟨essKeep_roundRegionRow b1, b2, b3, b4, b5⟩, b6, ?_⟩
    intro hR
    obtain ⟨w, hw⟩ := Option.isSome_iff_exists.mp (essKeep_region_isSome b1 hR)
    exact ⟨roundHalfEven w, by simp [roundRegionRow, hw]⟩
  · rename_i hreg
    obtain ⟨bA, b6⟩ := H r hr
    exact ⟨bA, b6, fun hR => absurd hR hreg⟩

theorem rowSpec_roundStatus (t : Table) (l : List Row)
    (H : ∀ r ∈ l,
      RowSpecA t r ∧ (t.hasStatus = true → r.status.isSome = true) ∧
      (t.hasRegion = true → ∃ k : ℤ, r.region = some (k : ℚ))) :
    ∀ r ∈ roundStatusRows t l, RowSpec t r := by
  intro r hr
  simp only [roundStatusRows] at hr
  split at hr
  · obtain ⟨r0, h0, rfl⟩ := List.mem_map.mp hr
    obtain ⟨⟨b1, b2, b3, b4, b5⟩, b6, b7⟩ := H r0 h0
    refine ⟨⟨b1, b2, b3, b4, b5⟩, ?_, b7⟩
    intro hS
    obtain ⟨w, hw⟩ := Option.isSome_iff_exists.mp (b6 hS)
    exact ⟨roundHalfEven w, by simp [roundStatusRow, hw]⟩
  · rename_i hst
    obtain ⟨bA, b6, b7⟩ := H r hr
    exact ⟨bA, fun hS => absurd hS hst, b7⟩

theorem beforeDedup_spec (t : Table) :
    ∀ r ∈ cleanBeforeDedupRows t, RowSpec t r := by
  have h2 := rowSpecA_filters t
  have h3 := rowSpecA_imputeMds t _ h2
  have h4 := rowSpecA_imputeMcg t _ h3
  have h5 := rowSpecA_imputeStatus t _ h4
  have h6 := rowSpecA_imputeRegion t _ h5
  have h7 := rowSpec_roundRegion t _ h6
  have h8 := rowSpec_roundStatus t _ h7
  exact h8

theorem clean_rows_spec (t : Table) : ∀ r ∈ (clean_and_types t).rows, RowSpec t r := by
  intro r hr
  refine beforeDedup_spec t r ?_
  have hr2 : r ∈ dedupRows t (cleanBeforeDedupRows t) := hr
  simp only [dedupRows] at hr2
  split at hr2
  · exact mem_of_mem_dedupByAux hr2
  · exact hr2

theorem latOk_spec {r : Row} (h : latOk r = true) :
    ∃ v, r.lat = some v ∧ -90 ≤ v ∧ v ≤ 90 := by
  unfold latOk at h
  cases hl : r.lat with
  | none => rw [hl] at h; simp at h
  | some v =>
    rw [hl] at h
    simp only [Bool.and_eq_true, decide_eq_true_eq] at h
    exact ⟨v, rfl, h.1, h.2⟩

theorem lonOk_spec {r : Row} (h : lonOk r = true) :
    ∃ v, r.lon = some v ∧ -180 ≤ v ∧ v ≤ 180 := by
  unfold lonOk at h
  cases hl : r.lon with
  | none => rw [hl] at h; simp at h
  | some v =>
    rw [hl] at h
    simp only [Bool.and_eq_true, decide_eq_true_eq] at h
    exact ⟨v, rfl, h.1, h.2⟩

theorem mdsOk_spec {r : Row} (h : mdsOk r = true) : ∀ v, r.mds = some v → 0 ≤ v := by
  intro v hv
  unfold mdsOk at h
  rw [hv] at h
  simpa using h

theorem mcgOk_spec {r : Row} (h : mcgOk r = true) : ∀ v, r.mcg = some v → 0 ≤ v := by
  intro v hv
  unfold mcgOk at h
  rw [hv] at h
  simpa using h

theorem fieldAON_map {f : Row → Option ℚ} {l : List Row} {g : Row → Row}
    (hg : ∀ r, f (g r) = f r) (h : FieldAON f l) : FieldAON f (l.map g) := by
  rcases h with h | h
  · left
    intro r hr
    obtain ⟨r0, h0, rfl⟩ := List.mem_map.mp hr
    rw [hg]
    exact h r0 h0
  · right
    intro r hr
    obtain ⟨r0, h0, rfl⟩ := List.mem_map.mp hr
    rw [hg]
    exact h r0 h0

theorem fieldAON_of_sublist {f : Row → Option ℚ} {l2 l : List Row}
    (hs : l2.Sublist l) (h : FieldAON f l) : FieldAON f l2 := by
  rcases h with h | h
  · exact Or.inl fun r hr => h r (hs.mem hr)
  · exact Or.inr fun r hr => h r (hs.mem hr)

theorem fieldAON_ite_map {f : Row → Option ℚ} {c : Prop} [Decidable c]
    {l : List Row} {g : Row → Row} (hg : ∀ r, f (g r) = f r) (h : FieldAON f l) :
    FieldAON f (if c then l.map g else l) := by
  split
  · exact fieldAON_map hg h
  · exact h

theorem presentVals_eq_nil {l : List Row} {f : Row → Option ℚ}
    (h : ∀ r ∈ l, f r = none) : presentVals (l.map f) = [] := by
  rw [presentVals, List.filterMap_eq_nil_iff]
  intro a ha
  obtain ⟨r, hrl, rfl⟩ := List.mem_map.mp ha
  simpa using h r hrl

theorem or_some_isSome (o : Option ℚ) (v : ℚ) : (o.or (some v)).isSome = true := by
  cases o <;> rfl

theorem mdsAON_imputeMds (t : Table) (l : List Row) (ht : t.hasMds = true) :
    FieldAON (fun r => r.mds) (imputeMdsRows t l) := by
  unfold imputeMdsRows
  split
  · cases hm : medianQ (presentVals (l.map (fun r => r.mds))) with
    | none =>
      left
      intro r hr
      obtain ⟨r0, h0, rfl⟩ := List.mem_map.mp hr
      have hemp := medianQ_eq_none hm
      have h1 : r0.mds = none := by
        cases h2 : r0.mds with
        | none => rfl
        | some v =>
          exfalso
          have hv : v ∈ presentVals (l.map (fun r => r.mds)) := by
            refine mem_presentVals.mpr ?_
            rw [← h2]
            exact List.mem_map_of_mem _ h0
          rw [hemp] at hv
          simp at hv
      show (fillMds none r0).mds = none
      rw [fillMds_none]
      exact h1
    | some v =>
      right
      intro r hr
      obtain ⟨r0, h0, rfl⟩ := List.mem_map.mp hr
      show (r0.mds.or (some v)).isSome = true
      exact or_some_isSome _ _
  · rename_i hg
    rw [ht, Bool.true_and] at hg
    simp only [Bool.not_eq_true] at hg
    right
    intro r hr
    have hne := List.any_eq_false.mp hg r hr
    cases h1 : r.mds with
    | none => rw [h1] at hne; simp at hne
    | some v => show r.mds.isSome = true; rw [h1]; rfl

theorem mcgAON_imputeMcg (t : Table) (l : List Row) (ht : t.hasMcg = true) :
    FieldAON (fun r => r.mcg) (imputeMcgRows t l) := by
  unfold imputeMcgRows
  split
  · cases hm : medianQ (presentVals (l.map (fun r => r.mcg))) with
    | none =>
      left
      intro r hr
      obtain ⟨r0, h0, rfl⟩ := List.mem_map.mp hr
      have hemp := medianQ_eq_none hm
      have h1 : r0.mcg = none := by
        cases h2 : r0.mcg with
        | none => rfl
        | some v =>
          exfalso
          have hv : v ∈ presentVals (l.map (fun r => r.mcg)) := by
            refine mem_presentVals.mpr ?_
            rw [← h2]
            exact List.mem_map_of_mem _ h0
          rw [hemp] at hv
          simp at hv
      show (fillMcg none r0).mcg = none
      rw [fillMcg_none]
      exact h1
    | some v =>
      right
      intro r hr
      obtain ⟨r0, h0, rfl⟩ := List.mem_map.mp hr
      show (r0.mcg.or (some v)).isSome = true
      exact or_some_isSome _ _
  · rename_i hg
    rw [ht, Bool.true_and] at hg
    simp only [Bool.not_eq_true] at hg
    right
    intro r hr
    have hne := List.any_eq_false.mp hg r hr
    cases h1 : r.mcg with
    | none => rw [h1] at hne; simp at hne
    | some v => show r.mcg.isSome = true; rw [h1]; rfl

theorem fieldAON_dedupRows {f : Row → Option ℚ} (t : Table) {l : List Row}
    (h : FieldAON f l) : FieldAON f (dedupRows t l) := by
  unfold dedupRows
  split
  · exact fieldAON_of_sublist (dedupByAux_sublist _ _ _) h
  · exact h

theorem mdsAON_clean (t : Table) (ht : t.hasMds = true) :
    FieldAON (fun r => r.mds) ((clean_and_types t).rows) := by
  have h3 := mdsAON_imputeMds t (nonnegRows t (rangeRows t (dropEssentialRows t t.rows))) ht
  have h4 : FieldAON (fun r => r.mds)
      (imputeMcgRows t (imputeMdsRows t (nonnegRows t (rangeRows t (dropEssentialRows t t.rows))))) :=
    fieldAON_ite_map (fun r => rfl) h3
  have h5 : FieldAON (fun r => r.mds)
      (imputeStatusRows t (imputeMcgRows t (imputeMdsRows t
        (nonnegRows t (rangeRows t (dropEssentialRows t t.rows)))))) :=
    fieldAON_ite_map (fun r => rfl) h4
  have h6 : FieldAON (fun r => r.mds)
      (imputeRegionRows t (imputeStatusRows t (imputeMcgRows t (imputeMdsRows t
        (nonnegRows t (rangeRows t (dropEssentialRows t t.rows))))))) :=
    fieldAON_ite_map (fun r => rfl) h5
  have h7 : FieldAON (fun r => r.mds)
      (roundRegionRows t (imputeRegionRows t (imputeStatusRows t (imputeMcgRows t (imputeMdsRows t
        (nonnegRows t (rangeRows t (dropEssentialRows t t.rows)))))))) :=
    fieldAON_ite_map (fun r => rfl) h6
  have h8 : FieldAON (fun r => r.mds) (cleanBeforeDedupRows t) :=
    fieldAON_ite_map (fun r => rfl) h7
  exact fieldAON_dedupRows t h8

theorem mcgAON_clean (t : Table) (ht : t.hasMcg = true) :
    FieldAON (fun r => r.mcg) ((clean_and_types t).rows) := by
  have h4 := mcgAON_imputeMcg t
    (imputeMdsRows t (nonnegRows t (rangeRows t (dropEssentialRows t t.rows)))) ht
  have h5 : FieldAON (fun r => r.mcg)
      (imputeStatusRows t (imputeMcgRows t (imputeMdsRows t
        (nonnegRows t (rangeRows t (dropEssentialRows t t.rows)))))) :=
    fieldAON_ite_map (fun r => rfl) h4
  have h6 : FieldAON (fun r => r.mcg)
      (imputeRegionRows t (imputeStatusRows t (imputeMcgRows t (imputeMdsRows t
        (nonnegRows t (rangeRows t (dropEssentialRows t t.rows))))))) :=
    fieldAON_ite_map (fun r => rfl) h5
  have h7 : FieldAON (fun r => r.mcg)
      (roundRegionRows t (imputeRegionRows t (imputeStatusRows t (imputeMcgRows t (imputeMdsRows t
        (nonnegRows t (rangeRows t (dropEssentialRows t t.rows)))))))) :=
    fieldAON_ite_map (fun r => rfl) h6
  have h8 : FieldAON (fun r => r.mcg) (cleanBeforeDedupRows t) :=
    fieldAON_ite_map (fun r => rfl) h7
  exact fieldAON_dedupRows t h8

theorem clean_pairwise (t : Table) :
    (t.hasTime || t.hasLat || t.hasLon || t.hasRegion) = true →
    List.Pairwise (fun a b => essKey t a ≠ essKey t b) ((clean_and_types t).rows) := by
  intro hg
  show List.Pairwise _ (dedupRows t (cleanBeforeDedupRows t))
  unfold dedupRows
  rw [if_pos hg]
  exact pairwise_dedupByAux _ _

theorem roundHalfEven_intCast (k : ℤ) : roundHalfEven (k : ℚ) = k := by
  norm_num [roundHalfEven, Int.floor_intCast]

theorem roundRegionRow_of_intCast {r : Row} {k : ℤ} (hk : r.region = some (k : ℚ)) :
    roundRegionRow r = r := by
  cases r with
  | mk time lat lon region mds mcg status y mo d hh mi se =>
    simp only at hk
    subst hk
    simp [roundRegionRow, roundHalfEven_intCast]

theorem roundStatusRow_of_intCast {r : Row} {k : ℤ} (hk : r.status = some (k : ℚ)) :
    roundStatusRow r = r := by
  cases r with
  | mk time lat lon region mds mcg status y mo d hh mi se =>
    simp only at hk
    subst hk
    simp [roundStatusRow, roundHalfEven_intCast]

theorem dropEssentialRows_eq_self {t : Table} {l : List Row}
    (h : ∀ r ∈ l, essKeep t r = true) : dropEssentialRows t l = l :=
  List.filter_eq_self.mpr h

theorem rangeRows_eq_self {t : Table} {l : List Row}
    (hlat : t.hasLat = true → ∀ r ∈ l, latOk r = true)
    (hlon : t.hasLon = true → ∀ r ∈ l, lonOk r = true) : rangeRows t l = l := by
  unfold rangeRows
  have e1 : (if t.hasLat = true then l.filter latOk else l) = l := by
    split
    · rename_i h1
      exact List.filter_eq_self.mpr (hlat h1)
    · rfl
  rw [e1]
  split
  · rename_i h2
    exact List.filter_eq_self.mpr (hlon h2)
  · rfl

theorem nonnegRows_eq_self {t : Table} {l : List Row}
    (hmds : t.hasMds = true → ∀ r ∈ l, mdsOk r = true)
    (hmcg : t.hasMcg = true → ∀ r ∈ l, mcgOk r = true) : nonnegRows t l = l := by
  unfold nonnegRows
  have e1 : (if t.hasMds = true then l.filter mdsOk else l) = l := by
    split
    · rename_i h1
      exact List.filter_eq_self.mpr (hmds h1)
    · rfl
  rw [e1]
  split
  · rename_i h2
    exact List.filter_eq_self.mpr (hmcg h2)
  · rfl

theorem imputeMdsRows_eq_self {t : Table} {l : List Row}
    (h : t.hasMds = true → FieldAON (fun r => r.mds) l) : imputeMdsRows t l = l := by
  unfold imputeMdsRows
  split
  · rename_i hg
    rw [Bool.and_eq_true] at hg
    rcases h hg.1 with hnone | hsome
    · have hm : medianQ (presentVals (l.map (fun r => r.mds))) = none := by
        rw [presentVals_eq_nil hnone]
        rfl
      rw [hm]
      refine (List.map_congr_left ?_).trans (List.map_id l)
      intro r _
      exact fillMds_none r
    · refine (List.map_congr_left ?_).trans (List.map_id l)
      intro r hr
      exact fillMds_of_isSome _ r (hsome r hr)
  · rfl

theorem imputeMcgRows_eq_self {t : Table} {l : List Row}
    (h : t.hasMcg = true → FieldAON (fun r => r.mcg) l) : imputeMcgRows t l = l := by
  unfold imputeMcgRows
  split
  · rename_i hg
    rw [Bool.and_eq_true] at hg
    rcases h hg.1 with hnone | hsome
    · have hm : medianQ (presentVals (l.map (fun r => r.mcg))) = none := by
        rw [presentVals_eq_nil hnone]
        rfl
      rw [hm]
      refine (List.map_congr_left ?_).trans (List.map_id l)
      intro r _
      exact fillMcg_none r
    · refine (List.map_congr_left ?_).trans (List.map_id l)
      intro r hr
      exact fillMcg_of_isSome _ r (hsome r hr)
  · rfl

theorem imputeStatusRows_eq_self {t : Table} {l : List Row}
    (h : t.hasStatus = true → ∀ r ∈ l, r.status.isSome = true) :
    imputeStatusRows t l = l := by
  unfold imputeStatusRows
  split
  · rename_i hg
    rw [Bool.and_eq_true] at hg
    exfalso
    obtain ⟨r, hrl, hnone⟩ := List.any_eq_true.mp hg.2
    have hsome := h hg.1 r hrl
    cases hst : r.status with
    | none => rw [hst] at hsome; simp at hsome
    | some v => rw [hst] at hnone; simp at hnone
  · rfl

theorem imputeRegionRows_eq_self {t : Table} {l : List Row}
    (h : t.hasRegion = true → ∀ r ∈ l, r.region.isSome = true) :
    imputeRegionRows t l = l := by
  unfold imputeRegionRows
  split
  · rename_i hg
    rw [Bool.and_eq_true] at hg
    exfalso
    obtain ⟨r, hrl, hnone⟩ := List.any_eq_true.mp hg.2
    have hsome := h hg.1 r hrl
    cases hst : r.region with
    | none => rw [hst] at hsome; simp at hsome
    | some v => rw [hst] at hnone; simp at hnone
  · rfl

theorem roundRegionRows_eq_self {t : Table} {l : List Row}
    (h : t.hasRegion = true → ∀ r ∈ l, ∃ k : ℤ, r.region = some (k : ℚ)) :
    roundRegionRows t l = l := by
  unfold roundRegionRows
  split
  · rename_i hR
    refine (List.map_congr_left ?_).trans (List.map_id l)
    intro r hr
    obtain ⟨k, hk⟩ := h hR r hr
    exact roundRegionRow_of_intCast hk
  · rfl

theorem roundStatusRows_eq_self {t : Table} {l : List Row}
    (h : t.hasStatus = true → ∀ r ∈ l, ∃ k : ℤ, r.status = some (k : ℚ)) :
    roundStatusRows t l = l := by
  unfold roundStatusRows
  split
  · rename_i hS
    refine (List.map_congr_left ?_).trans (List.map_id l)
    intro r hr
    obtain ⟨k, hk⟩ := h hS r hr
    exact roundStatusRow_of_intCast hk
  · rfl

theorem dedupRows_eq_self {t : Table} {l : List Row}
    (h : (t.hasTime || t.hasLat || t.hasLon || t.hasRegion) = true →
      List.Pairwise (fun a b => essKey t a ≠ essKey t b) l) : dedupRows t l = l := by
  unfold dedupRows
  split
  · rename_i hg
    exact dedupByAux_eq_self (h hg) (by simp)
  · rfl

theorem clean_and_types_idem (t : Table) :
    clean_and_types (clean_and_types t) = clean_and_types t := by
  have hspec := clean_rows_spec t
  have hess : ∀ r ∈ (clean_and_types t).rows, essKeep t r = true :=
    fun r hr => (hspec r hr).1.1
  have hlat : t.hasLat = true → ∀ r ∈ (clean_and_types t).rows, latOk r = true :=
    fun hL r hr => (hspec r hr).1.2.1 hL
  have hlon : t.hasLon = true → ∀ r ∈ (clean_and_types t).rows, lonOk r = true :=
    fun hL r hr => (hspec r hr).1.2.2.1 hL
  have hmds : t.hasMds = true → ∀ r ∈ (clean_and_types t).rows, mdsOk r = true :=
    fun hL r hr => (hspec r hr).1.2.2.2.1 hL
  have hmcg : t.hasMcg = true → ∀ r ∈ (clean_and_types t).rows, mcgOk r = true :=
    fun hL r hr => (hspec r hr).1.2.2.2.2 hL
  have hstatI : t.hasStatus = true → ∀ r ∈ (clean_and_types t).rows,
      ∃ k : ℤ, r.status = some (k : ℚ) :=
    fun hS r hr => (hspec r hr).2.1 hS
  have hregI : t.hasRegion = true → ∀ r ∈ (clean_and_types t).rows,
      ∃ k : ℤ, r.region = some (k : ℚ) :=
    fun hR r hr => (hspec r hr).2.2 hR
  have hstatS : t.hasStatus = true → ∀ r ∈ (clean_and_types t).rows,
      r.status.isSome = true := by
    intro hS r hr
    obtain ⟨k, hk⟩ := hstatI hS r hr
    rw [hk]
    rfl
  have hregS : t.hasRegion = true → ∀ r ∈ (clean_and_types t).rows,
      r.region.isSome = true := by
    intro hR r hr
    obtain ⟨k, hk⟩ := hregI hR r hr
    rw [hk]
    rfl
  have e1 : dropEssentialRows (clean_and_types t) ((clean_and_types t).rows)
      = (clean_and_types t).rows :=
    @dropEssentialRows_eq_self (clean_and_types t) ((clean_and_types t).rows) hess
  have e2 : rangeRows (clean_and_types t) ((clean_and_types t).rows)
      = (clean_and_types t).rows :=
    @rangeRows_eq_self (clean_and_types t) ((clean_and_types t).rows) hlat hlon
  have e3 : nonnegRows (clean_and_types t) ((clean_and_types t).rows)
      = (clean_and_types t).rows :=
    @nonnegRows_eq_self (clean_and_types t) ((clean_and_types t).rows) hmds hmcg
  have e4 : imputeMdsRows (clean_and_types t) ((clean_and_types t).rows)
      = (clean_and_types t).rows :=
    @imputeMdsRows_eq_self (clean_and_types t) ((clean_and_types t).rows)
      (fun hM => mdsAON_clean t hM)
  have e5 : imputeMcgRows (clean_and_types t) ((clean_and_types t).rows)
      = (clean_and_types t).rows :=
    @imputeMcgRows_eq_self (clean_and_types t) ((clean_and_types t).rows)
      (fun hM => mcgAON_clean t hM)
  have e6 : imputeStatusRows (clean_and_types t) ((clean_and_types t).rows)
      = (clean_and_types t).rows :=
    @imputeStatusRows_eq_self (clean_and_types t) ((clean_and_types t).rows) hstatS
  have e7 : imputeRegionRows (clean_and_types t) ((clean_and_types t).rows)
      = (clean_and_types t).rows :=
    @imputeRegionRows_eq_self (clean_and_types t) ((clean_and_types t).rows) hregS
  have e8 : roundRegionRows (clean_and_types t) ((clean_and_types t).rows)
      = (clean_and_types t).rows :=
    @roundRegionRows_eq_self (clean_and_types t) ((clean_and_types t).rows) hregI
  have e9 : roundStatusRows (clean_and_types t) ((clean_and_types t).rows)
      = (clean_and_types t).rows :=
    @roundStatusRows_eq_self (clean_and_types t) ((clean_and_types t).rows) hstatI
  have e10 : dedupRows (clean_and_types t) ((clean_and_types t).rows)
      = (clean_and_types t).rows :=
    @dedupRows_eq_self (clean_and_types t) ((clean_and_types t).rows)
      (fun hg => clean_pairwise t hg)
  have hrows : cleanBeforeDedupRows (clean_and_types t) = (clean_and_types t).rows := by
    unfold cleanBeforeDedupRows
    rw [e1, e2, e3, e4, e5, e6, e7, e8, e9]
  show ({ clean_and_types t with
      rows := dedupRows (clean_and_types t) (cleanBeforeDedupRows (clean_and_types t)) } : Table)
    = clean_and_types t
  rw [hrows, e10]

/-- C1: every row of the table returned by `clean_and_types` satisfies, for each
present column: `time` is not missing, `region` is not missing, `lat` lies in
[-90, 90], `lon` lies in [-180, 180], and `mds` and `mcg` are nonnegative
wherever they are present. -/
theorem clean_row_invariants (t : Table) (r : Row) (hr : r ∈ (clean_and_types t).rows) :
    (t.hasTime = true → r.time.isSome = true) ∧
    (t.hasRegion = true → r.region.isSome = true) ∧
    (t.hasLat = true → ∃ v, r.lat = some v ∧ -90 ≤ v ∧ v ≤ 90) ∧
    (t.hasLon = true → ∃ v, r.lon = some v ∧ -180 ≤ v ∧ v ≤ 180) ∧
    (t.hasMds = true → ∀ v, r.mds = some v → 0 ≤ v) ∧
    (t.hasMcg = true → ∀ v, r.mcg = some v → 0 ≤ v) := by
  obtain ⟨⟨b1, b2, b3, b4, b5⟩, b6, b7⟩ := clean_rows_spec t r hr
  exact ⟨fun h => essKeep_time b1 h,
    fun h => essKeep_region_isSome b1 h,
    fun h => latOk_spec (b2 h),
    fun h => lonOk_spec (b3 h),
    fun h => mdsOk_spec (b4 h),
    fun h => mcgOk_spec (b5 h)⟩

/-- Witness for C1 at a concrete one-row table. -/
theorem clean_row_invariants_witness :
    wR1.time.isSome = true ∧ (∃ v, wR1.lat = some v ∧ -90 ≤ v ∧ v ≤ 90) := by
  have hrows : (clean_and_types wT1).rows = [wR1] := by with_unfolding_all rfl
  have h := clean_row_invariants wT1 wR1 (by rw [hrows]; exact List.mem_cons_self _ _)
  exact ⟨h.1 rfl, h.2.2.1 rfl⟩

/-- C2: when the `time`, `lat`, `lon` and `region` columns are present, no two
rows of the cleaned table agree on all of `(time, lat, lon, region)`, and every
kept row is the first row carrying its key in the pre-deduplication row order
(first occurrence kept). -/
theorem clean_dedup_spec (t : Table) (h1 : t.hasTime = true) (h2 : t.hasLat = true)
    (h3 : t.hasLon = true) (h4 : t.hasRegion = true) :
    List.Pairwise (fun a b : Row =>
        ¬(a.time = b.time ∧ a.lat = b.lat ∧ a.lon = b.lon ∧ a.region = b.region))
      (clean_and_types t).rows ∧
    ∀ r ∈ (clean_and_types t).rows,
      (cleanBeforeDedupRows t).find?
        (fun s => decide (essKey t s = essKey t r)) = some r := by
  constructor
  · have hp := clean_pairwise t (by rw [h1]; rfl)
    refine hp.imp ?_
    intro a b hne heq
    apply hne
    unfold essKey
    rw [h1, h2, h3, h4]
    simp [heq.1, heq.2.1, heq.2.2.1, heq.2.2.2]
  · intro r hr
    have hr2 : r ∈ dedupRows t (cleanBeforeDedupRows t) := hr
    unfold dedupRows at hr2
    rw [if_pos (by rw [h1]; rfl)] at hr2
    exact find?_dedupByAux hr2

/-- Witness for C2 at a concrete table with a duplicated key. -/
theorem clean_dedup_spec_witness :
    List.Pairwise (fun a b : Row =>
        ¬(a.time = b.time ∧ a.lat = b.lat ∧ a.lon = b.lon ∧ a.region = b.region))
      (clean_and_types wT2).rows ∧
    ∀ r ∈ (clean_and_types wT2).rows,
      (cleanBeforeDedupRows wT2).find?
        (fun s => decide (essKey wT2 s = essKey wT2 r)) = some r :=
  clean_dedup_spec wT2 rfl rfl rfl rfl

/-- C3: `clean_and_types` is idempotent — cleaning an already-cleaned table
drops no further rows and changes no values. -/
theorem clean_idempotent (t : Table) :
    clean_and_types (clean_and_types t) = clean_and_types t :=
  clean_and_types_idem t

/-- C4 counterexample: an all-missing `mds` column survives cleaning with its
missing value intact (median of an empty value set is missing; `fillna(NaN)`
is a no-op), so the cleaned table can retain missing `mds` values. -/
theorem clean_imputation_counterexample :
    wT4.hasMds = true ∧ (clean_and_types wT4).rows.length = 1 ∧
    ∃ r ∈ (clean_and_types wT4).rows, r.mds = none := by decide

theorem imputeMds_back (t : Table) (l : List Row) :
    ∀ r ∈ imputeMdsRows t l, ∃ r0 ∈ l,
      (t.hasMds = true →
        r.mds = r0.mds.or (medianQ (presentVals (l.map (fun x => x.mds))))) ∧
      r.mcg = r0.mcg ∧ r.status = r0.status ∧ r.region = r0.region := by
  intro r hr
  unfold imputeMdsRows at hr
  split at hr
  · obtain ⟨r0, h0, rfl⟩ := List.mem_map.mp hr
    exact ⟨r0, h0, fun _ => rfl, rfl, rfl, rfl⟩
  · rename_i hg
    refine ⟨r, hr, ?_, rfl, rfl, rfl⟩
    intro hM
    rw [hM, Bool.true_and] at hg
    simp only [Bool.not_eq_true] at hg
    have hs := List.any_eq_false.mp hg r hr
    cases h1 : r.mds with
    | none => rw [h1] at hs; simp at hs
    | some v => rfl

theorem imputeMcg_back (t : Table) (l : List Row) :
    ∀ r ∈ imputeMcgRows t l, ∃ r0 ∈ l,
      (t.hasMcg = true →
        r.mcg = r0.mcg.or (medianQ (presentVals (l.map (fun x => x.mcg))))) ∧
      r.mds = r0.mds ∧ r.status = r0.status ∧ r.region = r0.region := by
  intro r hr
  unfold imputeMcgRows at hr
  split at hr
  · obtain ⟨r0, h0, rfl⟩ := List.mem_map.mp hr
    exact ⟨r0, h0, fun _ => rfl, rfl, rfl, rfl⟩
  · rename_i hg
    refine ⟨r, hr, ?_, rfl, rfl, rfl⟩
    intro hM
    rw [hM, Bool.true_and] at hg
    simp only [Bool.not_eq_true] at hg
    have hs := List.any_eq_false.mp hg r hr
    cases h1 : r.mcg with
    | none => rw [h1] at hs; simp at hs
    | some v => rfl

theorem imputeStatus_back (t : Table) (l : List Row) :
    ∀ r ∈ imputeStatusRows t l, ∃ r0 ∈ l,
      (t.hasStatus = true →
        r.status = r0.status.or (some ((modeQ (presentVals (l.map (fun x => x.status)))).getD 0))) ∧
      r.mds = r0.mds ∧ r.mcg = r0.mcg ∧ r.region = r0.region := by
  intro r hr
  unfold imputeStatusRows at hr
  split at hr
  · obtain ⟨r0, h0, rfl⟩ := List.mem_map.mp hr
    exact ⟨r0, h0, fun _ => rfl, rfl, rfl, rfl⟩
  · rename_i hg
    refine ⟨r, hr, ?_, rfl, rfl, rfl⟩
    intro hS
    rw [hS, Bool.true_and] at hg
    simp only [Bool.not_eq_true] at hg
    have hs := List.any_eq_false.mp hg r hr
    cases h1 : r.status with
    | none => rw [h1] at hs; simp at hs
    | some v => rfl

theorem imputeRegion_back (t : Table) (l : List Row) :
    ∀ r ∈ imputeRegionRows t l, ∃ r0 ∈ l,
      (t.hasRegion = true →
        r.region = r0.region.or (some ((modeQ (presentVals (l.map (fun x => x.region)))).getD 0))) ∧
      r.mds = r0.mds ∧ r.mcg = r0.mcg ∧ r.status = r0.status := by
  intro r hr
  unfold imputeRegionRows at hr
  split at hr
  · obtain ⟨r0, h0, rfl⟩ := List.mem_map.mp hr
    exact ⟨r0, h0, fun _ => rfl, rfl, rfl, rfl⟩
  · rename_i hg
    refine ⟨r, hr, ?_, rfl, rfl, rfl⟩
    intro hR
    rw [hR, Bool.true_and] at hg
    simp only [Bool.not_eq_true] at hg
    have hs := List.any_eq_false.mp hg r hr
    cases h1 : r.region with
    | none => rw [h1] at hs; simp at hs
    | some v => rfl

theorem roundRegion_back (t : Table) (l : List Row) :
    ∀ r ∈ roundRegionRows t l, ∃ r0 ∈ l,
      (t.hasRegion = true →
        r.region = r0.region.map (fun q => ((roundHalfEven q : Int) : ℚ))) ∧
      r.mds = r0.mds ∧ r.mcg = r0.mcg ∧ r.status = r0.status := by
  intro r hr
  unfold roundRegionRows at hr
  split at hr
  · obtain ⟨r0, h0, rfl⟩ := List.mem_map.mp hr
    exact ⟨r0, h0, fun _ => rfl, rfl, rfl, rfl⟩
  · rename_i hg
    exact ⟨r, hr, fun hR => absurd hR hg, rfl, rfl, rfl⟩

theorem roundStatus_back (t : Table) (l : List Row) :
    ∀ r ∈ roundStatusRows t l, ∃ r0 ∈ l,
      (t.hasStatus = true →
        r.status = r0.status.map (fun q => ((roundHalfEven q : Int) : ℚ))) ∧
      r.mds = r0.mds ∧ r.mcg = r0.mcg ∧ r.region = r0.region := by
  intro r hr
  unfold roundStatusRows at hr
  split at hr
  · obtain ⟨r0, h0, rfl⟩ := List.mem_map.mp hr
    exact ⟨r0, h0, fun _ => rfl, rfl, rfl, rfl⟩
  · rename_i hg
    exact ⟨r, hr, fun hS => absurd hS hg, rfl, rfl, rfl⟩

theorem mcg_col_imputeMds (t : Table) (l : List Row) :
    (imputeMdsRows t l).map (fun r => r.mcg) = l.map (fun r => r.mcg) := by
  unfold imputeMdsRows
  split
  · rw [List.map_map]
    exact List.map_congr_left (fun r _ => rfl)
  · rfl

theorem status_col_imputeMds (t : Table) (l : List Row) :
    (imputeMdsRows t l).map (fun r => r.status) = l.map (fun r => r.status) := by
  unfold imputeMdsRows
  split
  · rw [List.map_map]
    exact List.map_congr_left (fun r _ => rfl)
  · rfl

theorem status_col_imputeMcg (t : Table) (l : List Row) :
    (imputeMcgRows t l).map (fun r => r.status) = l.map (fun r => r.status) := by
  unfold imputeMcgRows
  split
  · rw [List.map_map]
    exact List.map_congr_left (fun r _ => rfl)
  · rfl

theorem region_col_imputeMds (t : Table) (l : List Row) :
    (imputeMdsRows t l).map (fun r => r.region) = l.map (fun r => r.region) := by
  unfold imputeMdsRows
  split
  · rw [List.map_map]
    exact List.map_congr_left (fun r _ => rfl)
  · rfl

theorem region_col_imputeMcg (t : Table) (l : List Row) :
    (imputeMcgRows t l).map (fun r => r.region) = l.map (fun r => r.region) := by
  unfold imputeMcgRows
  split
  · rw [List.map_map]
    exact List.map_congr_left (fun r _ => rfl)
  · rfl

theorem region_col_imputeStatus (t : Table) (l : List Row) :
    (imputeStatusRows t l).map (fun r => r.region) = l.map (fun r => r.region) := by
  unfold imputeStatusRows
  split
  · rw [List.map_map]
    exact List.map_congr_left (fun r _ => rfl)
  · rfl

/-- C4 (amended): every row of the cleaned table arises from a row that
entered the imputation steps, its missing `mds` and `mcg` (when the column is
present) replaced by that column's median over the present values — a no-op
when the column is entirely missing, since the median is then itself missing —
and its missing `status` and `region` (when present) replaced by that column's
mode, or by 0 when no mode exists, then rounded to an integer by the
type-finalization step.  Consequently no missing values remain in `status` or
`region`, and in each of `mds` and `mcg` either no values or all values are
missing. -/
theorem clean_imputation_spec (t : Table) :
    (∀ r ∈ (clean_and_types t).rows, ∃ r0 ∈ preImpute t,
      (t.hasMds = true → r.mds = r0.mds.or (mdsFill t)) ∧
      (t.hasMcg = true → r.mcg = r0.mcg.or (mcgFill t)) ∧
      (t.hasStatus = true → r.status =
        (r0.status.or (some (statusFill t))).map (fun q => ((roundHalfEven q : Int) : ℚ))) ∧
      (t.hasRegion = true → r.region =
        (r0.region.or (some (regionFill t))).map (fun q => ((roundHalfEven q : Int) : ℚ)))) ∧
    (t.hasStatus = true → ∀ r ∈ (clean_and_types t).rows, r.status.isSome = true) ∧
    (t.hasRegion = true → ∀ r ∈ (clean_and_types t).rows, r.region.isSome = true) ∧
    (t.hasMds = true → (∀ r ∈ (clean_and_types t).rows, r.mds = none) ∨
      (∀ r ∈ (clean_and_types t).rows, r.mds.isSome = true)) ∧
    (t.hasMcg = true → (∀ r ∈ (clean_and_types t).rows, r.mcg = none) ∨
      (∀ r ∈ (clean_and_types t).rows, r.mcg.isSome = true)) := by
  refine ⟨?_, ?_, ?_, fun hM => mdsAON_clean t hM, fun hM => mcgAON_clean t hM⟩
  · intro r hr
    have hr9 : r ∈ roundStatusRows t (roundRegionRows t (imputeRegionRows t (imputeStatusRows t
        (imputeMcgRows t (imputeMdsRows t (preImpute t)))))) := by
      have hr2 : r ∈ dedupRows t (cleanBeforeDedupRows t) := hr
      unfold dedupRows at hr2
      split at hr2
      · exact mem_of_mem_dedupByAux hr2
      · exact hr2
    obtain ⟨r8, h8, s9, m9, c9, g9⟩ := roundStatus_back t _ r hr9
    obtain ⟨r7, h7, g8, m8, c8, s8⟩ := roundRegion_back t _ r8 h8
    obtain ⟨r6, h6, g7, m7, c7, s7⟩ := imputeRegion_back t _ r7 h7
    obtain ⟨r5, h5, s6, m6, c6, g6⟩ := imputeStatus_back t _ r6 h6
    obtain ⟨r4, h4, c5, m5, s5, g5⟩ := imputeMcg_back t _ r5 h5
    obtain ⟨r0, h0, m4, c4, s4, g4⟩ := imputeMds_back t _ r4 h4
    refine ⟨r0, h0, ?_, ?_, ?_, ?_⟩
    · intro hM
      rw [m9, m8, m7, m6, m5]
      exact m4 hM
    · intro hC
      rw [c9, c8, c7, c6, c5 hC, c4, mcg_col_imputeMds t (preImpute t)]
      rfl
    · intro hS
      rw [s9 hS, s8, s7, s6 hS, s5, s4,
        status_col_imputeMcg t (imputeMdsRows t (preImpute t)),
        status_col_imputeMds t (preImpute t)]
      rfl
    · intro hR
      rw [g9, g8 hR, g7 hR, g6, g5, g4,
        region_col_imputeStatus t (imputeMcgRows t (imputeMdsRows t (preImpute t))),
        region_col_imputeMcg t (imputeMdsRows t (preImpute t)),
        region_col_imputeMds t (preImpute t)]
      rfl
  · intro hS r hr
    obtain ⟨k, hk⟩ := (clean_rows_spec t r hr).2.1 hS
    rw [hk]
    rfl
  · intro hR r hr
    obtain ⟨k, hk⟩ := (clean_rows_spec t r hr).2.2 hR
    rw [hk]
    rfl

/-- Witness for the amended C4 at a concrete two-row table whose second row
has its missing `mds` filled with the column median 4 and its missing
`status` filled with the column mode 3. -/
theorem clean_imputation_spec_witness :
    (∀ r ∈ (clean_and_types wT4i).rows, ∃ r0 ∈ preImpute wT4i,
      (wT4i.hasMds = true → r.mds = r0.mds.or (mdsFill wT4i)) ∧
      (wT4i.hasStatus = true → r.status =
        (r0.status.or (some (statusFill wT4i))).map (fun q => ((roundHalfEven q : Int) : ℚ)))) ∧
    mdsFill wT4i = some 4 ∧ statusFill wT4i = 3 ∧
    (clean_and_types wT4i).rows.map (fun r => r.mds) = [some 4, some 4] ∧
    (clean_and_types wT4i).rows.map (fun r => r.status) = [some 3, some 3] := by
  refine ⟨?_, by with_unfolding_all rfl, by with_unfolding_all rfl,
    by with_unfolding_all rfl, by with_unfolding_all rfl⟩
  intro r hr
  obtain ⟨r0, h0, hm, hc, hs, hg⟩ := (clean_imputation_spec wT4i).1 r hr
  exact ⟨r0, h0, hm, hs⟩

/-- C8: `add_time_features` returns the input unchanged when `time` is absent;
when `time` is present it returns the table extended with exactly the six
integer columns `year, month, day, hour, minute, second` derived from `time`,
all other columns and rows unchanged; in particular the timestamp of midnight
January 1, 2025 yields `year = 2025, month = 1, day = 1, hour = 0, minute = 0,
second = 0`. -/
theorem add_time_features_spec (t : Table) :
    (t.hasTime = false → add_time_features t = t) ∧
    (t.hasTime = true → add_time_features t =
      { t with hasYear := true, hasMonth := true, hasDay := true,
               hasHour := true, hasMinute := true, hasSecond := true,
               rows := t.rows.map timeFeatureRow }) ∧
    yearOf 1735689600000000000 = 2025 ∧ monthOf 1735689600000000000 = 1 ∧
    dayOf 1735689600000000000 = 1 ∧ hourOf 1735689600000000000 = 0 ∧
    minuteOf 1735689600000000000 = 0 ∧ secondOf 1735689600000000000 = 0 := by
  refine ⟨?_, ?_, by decide, by decide, by decide, by decide, by decide, by decide⟩
  · intro h
    unfold add_time_features
    rw [h]
    rfl
  · intro h
    unfold add_time_features
    rw [h]
    rfl

/-- Witness for C8 at a concrete table carrying the 2025-01-01 timestamp. -/
theorem add_time_features_witness :
    add_time_features wT8 =
      { wT8 with hasYear := true, hasMonth := true, hasDay := true,
                 hasHour := true, hasMinute := true, hasSecond := true,
                 rows := wT8.rows.map timeFeatureRow } :=
  (add_time_features_spec wT8).2.1 rfl

/-- C5: whenever the needed columns exist and fewer than 10 complete-case rows
remain after dropping rows with a missing value among the chosen features or
the target, `linear_regression_mcg` does not fit a model and does not raise:
it returns the tagged failure result (`ok = False`), whose reason string
carries the remaining row count, and which holds no model artifacts —
for every deterministic scikit-learn implementation. -/
theorem insufficient_rows_failure (lib : SkLib) (t : Table) (fc : Option (List String))
    (tc : String) (ts : ℚ) (seed : ℕ) (ohr : Bool)
    (hcols : (regNeeded t fc tc).all (hasCol t) = true)
    (hfew : (completeRows (selRows t (regNeeded t fc tc))).length < 10) :
    linear_regression_mcg lib t fc tc ts seed ohr =
      .ok (.failure ("Not enough data after dropna(): "
          ++ toString (completeRows (selRows t (regNeeded t fc tc))).length ++ " rows")
        (regFeatures t fc) tc) := by
  simp only [regNeeded] at hcols hfew ⊢
  simp only [linear_regression_mcg]
  rcases hse : selectCols t (regFeatures t fc ++ [tc]) with e | sel
  · exfalso
    unfold selectCols at hse
    rw [if_pos hcols] at hse
    exact absurd hse (by simp)
  · dsimp only
    unfold selectCols at hse
    rw [if_pos hcols] at hse
    have hsel : sel = selRows t (regFeatures t fc ++ [tc]) := by
      injection hse with h1
      exact h1.symm
    subst hsel
    rw [if_pos hfew]

/-- Witness for C5 at a concrete empty table. -/
theorem insufficient_rows_failure_witness :
    linear_regression_mcg trivLib wT5 none "mcg" (1 / 5) 42 true =
      .ok (.failure "Not enough data after dropna(): 0 rows"
        ["mds", "region", "lat", "lon"] "mcg") :=
  (insufficient_rows_failure trivLib wT5 none "mcg" (1 / 5) 42 true (by decide)
    (by decide)).trans (by with_unfolding_all rfl)

/-- C9: `linear_regression_mcg` is deterministic in the seed — for any
deterministic scikit-learn implementation, two runs whose selected
feature/target data agree (in particular, two runs on identical input with the
same `random_state`) produce the identical train/test partition and the
identical result, including fitted coefficients, intercept and metrics. -/
theorem regression_deterministic (lib : SkLib) (fcl : List String) (tc : String)
    (ts : ℚ) (seed : ℕ) (ohr : Bool) (t1 t2 : Table)
    (h : selectCols t1 (fcl ++ [tc]) = selectCols t2 (fcl ++ [tc])) :
    regSplit lib t1 fcl tc ts seed = regSplit lib t2 fcl tc ts seed ∧
    linear_regression_mcg lib t1 (some fcl) tc ts seed ohr =
      linear_regression_mcg lib t2 (some fcl) tc ts seed ohr := by
  constructor
  · unfold regSplit
    rw [h]
  · simp only [linear_regression_mcg, regFeatures]
    rw [h]

/-- Witness for C9 at two concrete tables with equal selected columns. -/
theorem regression_deterministic_witness :
    regSplit trivLib wT9a ["lat"] "lon" (1 / 5) 42 =
      regSplit trivLib wT9b ["lat"] "lon" (1 / 5) 42 ∧
    linear_regression_mcg trivLib wT9a (some ["lat"]) "lon" (1 / 5) 42 true =
      linear_regression_mcg trivLib wT9b (some ["lat"]) "lon" (1 / 5) 42 true :=
  regression_deterministic trivLib ["lat"] "lon" (1 / 5) 42 true wT9a wT9b (by rfl)

/-- C10: on a table lacking the target column `mcg`, `linear_regression_mcg`
raises an uncaught `KeyError` from selecting the needed columns (modelled as
`Except.error`), with `mcg` among the missing names, instead of returning a
tagged failure result. -/
theorem missing_target_keyError (lib : SkLib) (t : Table) (fc : Option (List String))
    (ts : ℚ) (seed : ℕ) (ohr : Bool) (h : t.hasMcg = false) :
    ∃ missing, linear_regression_mcg lib t fc "mcg" ts seed ohr =
      .error (.keyError missing) ∧ "mcg" ∈ missing := by
  have hmcg : hasCol t "mcg" = false := h
  have hall : (regFeatures t fc ++ ["mcg"]).all (hasCol t) = false := by
    rw [List.all_eq_false]
    exact ⟨"mcg", List.mem_append_right _ (List.mem_cons_self _ _), by rw [hmcg]; simp⟩
  refine ⟨(regFeatures t fc ++ ["mcg"]).filter (fun c => !hasCol t c), ?_, ?_⟩
  · simp only [linear_regression_mcg, selectCols]
    rw [hall]
    rfl
  · refine List.mem_filter.mpr ⟨List.mem_append_right _ (List.mem_cons_self _ _), ?_⟩
    rw [hmcg]
    rfl

/-- Witness for C10 at a concrete table without an `mcg` column. -/
theorem missing_target_keyError_witness :
    ∃ missing, linear_regression_mcg trivLib wT10 none "mcg" (1 / 5) 42 true =
      .error (.keyError missing) ∧ "mcg" ∈ missing :=
  missing_target_keyError trivLib wT10 none (1 / 5) 42 true rfl

theorem targetEntries_ne_target {M : CorrMat ℚ} {target : String} {p : String × ℚ}
    (hp : p ∈ targetEntries M target) : p.1 ≠ target := by
  unfold targetEntries at hp
  obtain ⟨q, hq, hqe⟩ := List.mem_filterMap.mp hp
  by_cases h : q.1 = target
  · rw [if_pos h] at hqe
    simp at hqe
  · rw [if_neg h] at hqe
    cases hm : q.2.getD (M.cols.indexOf target) none with
    | none => rw [hm] at hqe; simp at hqe
    | some v =>
      rw [hm] at hqe
      rw [Option.some_inj] at hqe
      rw [← hqe]
      exact h

/-- C6: `top_correlations` returns an empty result when the target is not an
axis of the matrix; otherwise it returns at most `n` entries, all drawn
unchanged (signs preserved) from the target's column with the self-correlation
entry removed, sorted in descending order of absolute value. -/
theorem top_correlations_spec (M : CorrMat ℚ) (target : String) (n : ℕ) :
    (M.cols.contains target = false → top_correlations M target n = []) ∧
    (top_correlations M target n).length ≤ n ∧
    (∀ p ∈ top_correlations M target n, p.1 ≠ target ∧ p ∈ targetEntries M target) ∧
    List.Pairwise (fun a b : String × ℚ => |b.2| ≤ |a.2|) (top_correlations M target n) := by
  unfold top_correlations
  split
  · rename_i hc
    refine ⟨fun hfalse => absurd hc (by rw [hfalse]; simp), ?_, ?_, ?_⟩
    · rw [List.length_take]
      exact min_le_left _ _
    · intro p hp
      have hmem : p ∈ List.insertionSort absGe (targetEntries M target) :=
        (List.take_sublist _ _).mem hp
      have hmem2 : p ∈ targetEntries M target :=
        (List.perm_insertionSort absGe _).mem_iff.mp hmem
      exact ⟨targetEntries_ne_target hmem2, hmem2⟩
    · exact List.Pairwise.sublist (List.take_sublist _ _) (List.sorted_insertionSort absGe _)
  · exact ⟨fun _ => rfl, by simp, by simp, by simp⟩

/-- Witness for C6 at a concrete 3-by-3 correlation matrix. -/
theorem top_correlations_spec_witness :
    top_correlations wM6 "hour" 3 = [] ∧
    (top_correlations wM6 "mcg" 2).length ≤ 2 :=
  ⟨(top_correlations_spec wM6 "hour" 3).1 (by rfl),
   (top_correlations_spec wM6 "mcg" 2).2.1⟩

theorem sumSqDev_nonneg (xs : List ℚ) : 0 ≤ sumSqDev xs := by
  refine List.sum_nonneg ?_
  intro x hx
  obtain ⟨y, hy, rfl⟩ := List.mem_map.mp hx
  positivity

theorem pairPresent_swap (p : Option ℚ × Option ℚ) :
    pairPresent p.swap = (pairPresent p).map Prod.swap := by
  rcases p with ⟨a, b⟩
  cases a <;> cases b <;> rfl

theorem zipPresent_swap (xs ys : List (Option ℚ)) :
    (ys.zip xs).filterMap pairPresent =
      ((xs.zip ys).filterMap pairPresent).map Prod.swap := by
  rw [← List.zip_swap xs ys, List.filterMap_map, List.map_filterMap]
  congr 1
  funext p
  exact pairPresent_swap p

theorem sumCross_swap (ps : List (ℚ × ℚ)) : sumCross (ps.map Prod.swap) = sumCross ps := by
  unfold sumCross
  simp only [List.map_map]
  have e1 : Prod.fst ∘ (Prod.swap : ℚ × ℚ → ℚ × ℚ) = Prod.snd := rfl
  have e2 : Prod.snd ∘ (Prod.swap : ℚ × ℚ → ℚ × ℚ) = Prod.fst := rfl
  rw [e1, e2]
  refine congrArg List.sum ?_
  refine List.map_congr_left ?_
  intro p _
  simp only [Function.comp_apply, Prod.fst_swap, Prod.snd_swap]
  ring

theorem corrEntry_comm (xs ys : List (Option ℚ)) : corrEntry xs ys = corrEntry ys xs := by
  simp only [corrEntry]
  rw [zipPresent_swap xs ys, sumCross_swap]
  simp only [List.map_map]
  have e1 : Prod.fst ∘ (Prod.swap : ℚ × ℚ → ℚ × ℚ) = Prod.snd := rfl
  have e2 : Prod.snd ∘ (Prod.swap : ℚ × ℚ → ℚ × ℚ) = Prod.fst := rfl
  rw [e1, e2]
  have hc : ((xs.zip ys).filterMap pairPresent = [] ∨
      sumSqDev (((xs.zip ys).filterMap pairPresent).map Prod.fst) = 0 ∨
      sumSqDev (((xs.zip ys).filterMap pairPresent).map Prod.snd) = 0) ↔
      (((xs.zip ys).filterMap pairPresent).map Prod.swap = [] ∨
      sumSqDev (((xs.zip ys).filterMap pairPresent).map Prod.snd) = 0 ∨
      sumSqDev (((xs.zip ys).filterMap pairPresent).map Prod.fst) = 0) := by
    rw [List.map_eq_nil_iff]
    tauto
  rw [if_congr hc.symm rfl ?_]
  rw [mul_comm]

theorem zip_self_pairPresent (xs : List (Option ℚ)) :
    (xs.zip xs).filterMap pairPresent = (presentVals xs).map (fun x => (x, x)) := by
  induction xs with
  | nil => rfl
  | cons a as ih =>
    cases a with
    | none =>
      simp only [List.zip_cons_cons, List.filterMap_cons] at ih ⊢
      simpa [pairPresent, presentVals] using ih
    | some x =>
      simp only [List.zip_cons_cons, List.filterMap_cons] at ih ⊢
      simpa [pairPresent, presentVals] using ih

theorem corrEntry_self (xs : List (Option ℚ)) (h : sumSqDev (presentVals xs) ≠ 0) :
    corrEntry xs xs = some 1 := by
  simp only [corrEntry]
  rw [zip_self_pairPresent]
  simp only [List.map_map]
  have e1 : Prod.fst ∘ (fun x : ℚ => (x, x)) = id := rfl
  have e2 : Prod.snd ∘ (fun x : ℚ => (x, x)) = id := rfl
  rw [e1, e2, List.map_id]
  have hcross : sumCross ((presentVals xs).map (fun x => (x, x))) = sumSqDev (presentVals xs) := by
    unfold sumCross sumSqDev
    simp only [List.map_map]
    rw [e1, e2, List.map_id]
    refine congrArg List.sum ?_
    refine List.map_congr_left ?_
    intro p _
    simp only [Function.comp_apply]
    ring
  rw [hcross]
  rw [if_neg ?_]
  · congr 1
    have hc : ((sumSqDev (presentVals xs) * sumSqDev (presentVals xs) : ℚ) : ℝ)
        = ((sumSqDev (presentVals xs) : ℝ) * (sumSqDev (presentVals xs) : ℝ)) := by
      push_cast
      ring
    rw [hc, Real.sqrt_mul_self (by exact_mod_cast sumSqDev_nonneg _)]
    rw [div_self (by exact_mod_cast h)]
  · rintro (hnil | h0 | h0)
    · rw [List.map_eq_nil_iff] at hnil
      apply h
      rw [hnil]
      rfl
    · exact h h0
    · exact h h0

theorem entryAt_corr (t : Table) (i j : ℕ)
    (hi : i < (corrCols t).length) (hj : j < (corrCols t).length) :
    entryAt (correlation_matrix t) i j =
      corrEntry (colList t ((corrCols t).getD i ""))
        (colList t ((corrCols t).getD j "")) := by
  unfold entryAt correlation_matrix
  dsimp only
  rw [List.getD_eq_getElem?_getD
      ((corrCols t).map (fun a => (corrCols t).map (fun b =>
        corrEntry (colList t a) (colList t b)))) i]
  rw [List.getElem?_map, List.getElem?_eq_getElem hi]
  simp only [Option.map_some', Option.getD_some]
  rw [List.getD_eq_getElem?_getD
      ((corrCols t).map (fun b => corrEntry (colList t ((corrCols t)[i])) (colList t b))) j]
  rw [List.getElem?_map, List.getElem?_eq_getElem hj]
  simp only [Option.map_some', Option.getD_some]
  rw [List.getD_eq_getElem?_getD (corrCols t) i, List.getElem?_eq_getElem hi]
  rw [List.getD_eq_getElem?_getD (corrCols t) j, List.getElem?_eq_getElem hj]
  rfl

theorem entryAt_corr_oob (t : Table) (i j : ℕ) (hi : (corrCols t).length ≤ i) :
    entryAt (correlation_matrix t) i j = none ∧
    entryAt (correlation_matrix t) j i = none := by
  unfold entryAt correlation_matrix
  dsimp only
  constructor
  · rw [List.getD_eq_getElem?_getD
        ((corrCols t).map (fun a => (corrCols t).map (fun b =>
          corrEntry (colList t a) (colList t b)))) i]
    rw [List.getElem?_map, List.getElem?_eq_none hi]
    simp
  · rw [List.getD_eq_getElem?_getD
        ((corrCols t).map (fun a => (corrCols t).map (fun b =>
          corrEntry (colList t a) (colList t b)))) j]
    rw [List.getElem?_map]
    cases hj : (corrCols t)[j]? with
    | none => simp
    | some c =>
      simp only [Option.map_some', Option.getD_some]
      rw [List.getD_eq_getElem?_getD ((corrCols t).map (fun b =>
        corrEntry (colList t c) (colList t b))) i]
      rw [List.getElem?_map, List.getElem?_eq_none hi]
      simp

/-- C7: the matrix returned by `correlation_matrix` has the same selected
column set on both axes and is square, is symmetric (`M[i][j] = M[j][i]` for
all positions), and has `M[i][i] = 1` for every column with nonzero
variance. -/
theorem correlation_matrix_spec (t : Table) :
    (correlation_matrix t).cols = corrCols t ∧
    (correlation_matrix t).vals.length = (corrCols t).length ∧
    (∀ row ∈ (correlation_matrix t).vals, row.length = (corrCols t).length) ∧
    (∀ i j, entryAt (correlation_matrix t) i j = entryAt (correlation_matrix t) j i) ∧
    (∀ i, i < (corrCols t).length →
      sumSqDev (presentVals (colList t ((corrCols t).getD i ""))) ≠ 0 →
      entryAt (correlation_matrix t) i i = some 1) := by
  refine ⟨rfl, by simp [correlation_matrix], ?_, ?_, ?_⟩
  · intro row hrow
    simp only [correlation_matrix] at hrow
    obtain ⟨a, _, rfl⟩ := List.mem_map.mp hrow
    simp
  · intro i j
    by_cases hi : i < (corrCols t).length
    · by_cases hj : j < (corrCols t).length
      · rw [entryAt_corr t i j hi hj, entryAt_corr t j i hj hi, corrEntry_comm]
      · have hb := entryAt_corr_oob t j i (le_of_not_lt hj)
        rw [hb.1, hb.2]
    · have hb := entryAt_corr_oob t i j (le_of_not_lt hi)
      rw [hb.1, hb.2]
  · intro i hi hvar
    rw [entryAt_corr t i i hi hi]
    exact corrEntry_self _ hvar

/-- Witness for C7 at a concrete two-row table with nonzero `lat` variance. -/
theorem correlation_matrix_spec_witness :
    entryAt (correlation_matrix wT7) 0 0 = some 1 ∧
    entryAt (correlation_matrix wT7) 0 1 = entryAt (correlation_matrix wT7) 1 0 := by
  have h := correlation_matrix_spec wT7
  refine ⟨h.2.2.2.2 0 (by decide) ?_, h.2.2.2.1 0 1⟩
  have hv : sumSqDev (presentVals (colList wT7 ((corrCols wT7).getD 0 ""))) = 2 := by
    with_unfolding_all rfl
  rw [hv]
  norm_num

end Lightning
